import Mathlib

/-!
# Verification of the ePermits scrape-and-enrich pipeline

A shallow embedding of the core of the repository (`db.py`, `scraper.py`,
`geo_imagery.py`, `utils.py`, `thumbnails.py`) together with proofs of the
spec's testable properties.

Conventions of the embedding:
* Python strings are modelled as `List Char` (or Lean `String` for opaque
  record fields); all attribute/selector strings in this code base are ASCII,
  so ASCII-only models of `str.lower` and of SQLite's `BINARY` collation
  (byte-wise comparison) are faithful.
* Python floats produced by `float(...)` on decimal literals are modelled as
  exact rationals (`ℚ`).  The only float observations the code makes on them
  are equality with `0.0` (truthiness) and pass-through, and a decimal literal
  with 1–3 integer digits and ≥ 4 fractional digits converts to `0.0` exactly
  when all its digits are zero, so the rational model is faithful for these
  observations.
* Fallible calls (network requests, Playwright actions) are modelled as
  explicit outcome values (`Except Unit _`), passed in as parameters; a raised
  exception is `Except.error`.
* `json.dumps(details, ensure_ascii=False)` / `json.loads` (Python standard
  library, external to the repo) are modelled by `Json.render` / `Json.loads`
  below, restricted to integer JSON numbers (the scraped `details` mappings
  hold only strings and `None`).
-/

namespace EPermits

/-! ## Character helpers -/

/-- ASCII decimal digit test (`[0-9]` in the scraper's regex, and the digits
accepted by Python's `json` number grammar and by SQLite's date parser),
expressed on the character's code point. -/
def isDig (c : Char) : Bool := 48 ≤ c.toNat && c.toNat ≤ 57

/-- The digit character for a value `< 10`. -/
def digCh (d : Nat) : Char := Char.ofNat ('0'.toNat + d)

/-- Numeric value of a digit character. -/
def digVal (c : Char) : Nat := c.toNat - '0'.toNat

/-- Lower-case hexadecimal digit character (Python's `json` emits lower-case
hex in `\u00XX` escapes). -/
def hexCh (d : Nat) : Char :=
  if d < 10 then Char.ofNat ('0'.toNat + d) else Char.ofNat ('a'.toNat + d - 10)

/-- Value of a hexadecimal digit character, if any. -/
def hexVal (c : Char) : Option Nat :=
  let n := c.toNat
  if 48 ≤ n && n ≤ 57 then some (n - 48)
  else if 97 ≤ n && n ≤ 102 then some (n - 87)
  else if 65 ≤ n && n ≤ 70 then some (n - 55)
  else none

/-- Decimal value of a digit string, most significant first (what Python's
`int`/`json` number parsing computes on a digit run). -/
def digitsVal (ds : List Char) : Nat := ds.foldl (fun a c => a * 10 + digVal c) 0

/-- Decimal rendering of a natural number, as Python's `str` produces it. -/
def natRender (n : Nat) : List Char :=
  if n = 0 then ['0'] else ((Nat.digits 10 n).map digCh).reverse

/-- Decimal rendering of an integer, as Python's `str`/`json.dumps` produce. -/
def intRender (n : Int) : List Char :=
  if n < 0 then '-' :: natRender n.natAbs else natRender n.natAbs

/-! ## JSON values and `json.dumps` (model of the Python standard library)

`Json` models the JSON-serializable values the pipeline stores in the
`details` column: `None`, booleans, integers, strings, lists and string-keyed
dicts.  (Python float values never occur in the scraped `details` mappings and
are outside the model.) -/

inductive Json where
  | null
  | bool (b : Bool)
  | int (n : Int)
  | str (s : List Char)
  | arr (xs : List Json)
  | obj (kvs : List (List Char × Json))

/-- One escaped character of a JSON string literal, exactly as
`json.dumps(..., ensure_ascii=False)` emits it: `"` and `\` are escaped, the
five short escapes are used for their control characters, all other
characters below `0x20` become `\u00XX` (lower-case hex), and everything else
is passed through raw. -/
def escapeChar (c : Char) : List Char :=
  if c = '"' then ['\\', '"']
  else if c = '\\' then ['\\', '\\']
  else if c = '\n' then ['\\', 'n']
  else if c = '\t' then ['\\', 't']
  else if c = '\r' then ['\\', 'r']
  else if c = Char.ofNat 8 then ['\\', 'b']
  else if c = Char.ofNat 12 then ['\\', 'f']
  else if c.toNat < 32 then
    ['\\', 'u', '0', '0', hexCh (c.toNat / 16), hexCh (c.toNat % 16)]
  else [c]

/-- A JSON string literal: quote, escaped body, quote. -/
def encStr (s : List Char) : List Char :=
  '"' :: (s.map escapeChar).flatten ++ ['"']

mutual

/-- `json.dumps(v, ensure_ascii=False)` with the default separators
`", "` and `": "`. -/
def Json.render : Json → List Char
  | .null => 'n' :: 'u' :: 'l' :: ['l']
  | .bool true => 't' :: 'r' :: 'u' :: ['e']
  | .bool false => 'f' :: 'a' :: 'l' :: 's' :: ['e']
  | .int n => intRender n
  | .str s => encStr s
  | .arr [] => ['[', ']']
  | .arr (x :: xs) => '[' :: (Json.render x ++ Json.renderTail xs) ++ [']']
  | .obj [] => ['{', '}']
  | .obj (m :: ms) => '{' :: (Json.renderMem m ++ Json.renderMemTail ms) ++ ['}']

/-- Remaining array elements, each preceded by the `", "` separator. -/
def Json.renderTail : List Json → List Char
  | [] => []
  | x :: xs => ',' :: ' ' :: (Json.render x ++ Json.renderTail xs)

/-- One object member: `"key": value`. -/
def Json.renderMem : List Char × Json → List Char
  | (k, v) => encStr k ++ ':' :: ' ' :: Json.render v

/-- Remaining object members, each preceded by the `", "` separator. -/
def Json.renderMemTail : List (List Char × Json) → List Char
  | [] => []
  | m :: ms => ',' :: ' ' :: (Json.renderMem m ++ Json.renderMemTail ms)

end

/-! ## `json.loads` (model of the Python standard library parser)

A recursive-descent parser for the JSON grammar restricted to integer
numbers.  Recursion is on an explicit fuel argument (decremented at every
nested-value step) so every function is structurally total and reduces by
computation. -/

/-- JSON insignificant whitespace (`' '`, `'\t'`, `'\n'`, `'\r'`). -/
def isJsonWs (c : Char) : Bool := c = ' ' || c = '\t' || c = '\n' || c = '\r'

/-- Drop leading JSON whitespace. -/
def skipWs (cs : List Char) : List Char := cs.dropWhile isJsonWs

/-- Inverse of the short escapes accepted after a backslash. -/
def unescCh : Char → Option Char
  | '"' => some '"'
  | '\\' => some '\\'
  | '/' => some '/'
  | 'b' => some (Char.ofNat 8)
  | 'f' => some (Char.ofNat 12)
  | 'n' => some '\n'
  | 'r' => some '\r'
  | 't' => some '\t'
  | _ => none

/-- Parse the body of a string literal (after the opening quote) up to the
closing quote, resolving escapes. -/
def parseStrBody : List Char → Option (List Char × List Char)
  | [] => none
  | c :: rest =>
    if c = '"' then some ([], rest)
    else if c = '\\' then
      match rest with
      | 'u' :: a :: b :: c2 :: d :: rest2 =>
        match hexVal a, hexVal b, hexVal c2, hexVal d with
        | some va, some vb, some vc, some vd =>
          (parseStrBody rest2).map fun (s, r) =>
            (Char.ofNat (((va * 16 + vb) * 16 + vc) * 16 + vd) :: s, r)
        | _, _, _, _ => none
      | e :: rest2 =>
        match unescCh e with
        | some ch => (parseStrBody rest2).map fun (s, r) => (ch :: s, r)
        | none => none
      | [] => none
    else (parseStrBody rest).map fun (s, r) => (c :: s, r)

/-- Parse a nonempty digit run as a natural number. -/
def parseNatTok (cs : List Char) : Option (Nat × List Char) :=
  let ds := cs.takeWhile isDig
  if ds.isEmpty then none else some (digitsVal ds, cs.dropWhile isDig)

/-- Parse an (integer) JSON number, optional leading minus sign. -/
def parseIntTok : List Char → Option (Int × List Char)
  | [] => none
  | c :: rest =>
    if c = '-' then (parseNatTok rest).map fun (n, r) => (-(n : Int), r)
    else (parseNatTok (c :: rest)).map fun (n, r) => ((n : Int), r)

mutual

/-- Parse one JSON value (fuel-bounded), dispatching on the first
non-whitespace character. -/
def parseVal : Nat → List Char → Option (Json × List Char)
  | 0, _ => none
  | f + 1, cs =>
    match skipWs cs with
    | [] => none
    | c :: rest =>
      if c = '"' then (parseStrBody rest).map fun (s, r) => (.str s, r)
      else if c = '[' then
        match skipWs rest with
        | [] => none
        | c2 :: rest2 =>
          if c2 = ']' then some (.arr [], rest2)
          else (parseElems f (c2 :: rest2)).map fun (xs, r) => (.arr xs, r)
      else if c = '{' then
        match skipWs rest with
        | [] => none
        | c2 :: rest2 =>
          if c2 = '}' then some (.obj [], rest2)
          else (parseMembers f (c2 :: rest2)).map fun (ms, r) => (.obj ms, r)
      else if c = 'n' then
        if rest.take 3 = ['u', 'l', 'l'] then some (.null, rest.drop 3) else none
      else if c = 't' then
        if rest.take 3 = ['r', 'u', 'e'] then some (.bool true, rest.drop 3) else none
      else if c = 'f' then
        if rest.take 4 = ['a', 'l', 's', 'e'] then some (.bool false, rest.drop 4)
        else none
      else (parseIntTok (c :: rest)).map fun (n, r) => (.int n, r)

/-- Parse a nonempty comma-separated element list up to `']'`. -/
def parseElems : Nat → List Char → Option (List Json × List Char)
  | 0, _ => none
  | f + 1, cs =>
    match parseVal f cs with
    | none => none
    | some (v, r) =>
      match skipWs r with
      | [] => none
      | c :: r2 =>
        if c = ',' then
          match parseElems f (skipWs r2) with
          | some (vs, r3) => some (v :: vs, r3)
          | none => none
        else if c = ']' then some ([v], r2)
        else none

/-- Parse a nonempty comma-separated member list up to the closing brace. -/
def parseMembers : Nat → List Char → Option (List (List Char × Json) × List Char)
  | 0, _ => none
  | f + 1, cs =>
    match cs with
    | [] => none
    | c :: r =>
      if c = '"' then
        match parseStrBody r with
        | none => none
        | some (k, r1) =>
          match skipWs r1 with
          | [] => none
          | c2 :: r2 =>
            if c2 = ':' then
              match parseVal f (skipWs r2) with
              | none => none
              | some (v, r3) =>
                match skipWs r3 with
                | [] => none
                | c3 :: r4 =>
                  if c3 = ',' then
                    match parseMembers f (skipWs r4) with
                    | some (ms, r5) => some ((k, v) :: ms, r5)
                    | none => none
                  else if c3 = '}' then some ([(k, v)], r4)
                  else none
            else none
      else none

end

/-- `json.loads`: parse a complete document, rejecting trailing garbage. -/
def Json.loads (cs : List Char) : Option Json :=
  match parseVal (cs.length + 1) cs with
  | some (j, rest) => if skipWs rest = [] then some j else none
  | none => none

/-! ### The `json.loads`/`json.dumps` round trip

The proofs below establish `Json.loads (Json.render v) = some v`: deserializing
the serialized `details` blob recovers the original mapping. -/

mutual

/-- Node-count measure of a JSON value, a lower bound for the parser fuel. -/
def jsize : Json → Nat
  | .null => 1
  | .bool _ => 1
  | .int _ => 1
  | .str _ => 1
  | .arr [] => 1
  | .arr (x :: xs) => 1 + jsizeE (x :: xs)
  | .obj [] => 1
  | .obj (m :: ms) => 1 + jsizeM (m :: ms)

/-- Fuel needed by `parseElems` on a nonempty element list. -/
def jsizeE : List Json → Nat
  | [] => 0
  | x :: xs => 1 + Nat.max (jsize x) (jsizeE xs)

/-- Fuel needed by `parseMembers` on a nonempty member list. -/
def jsizeM : List (List Char × Json) → Nat
  | [] => 0
  | m :: ms => 1 + Nat.max (jsize m.2) (jsizeM ms)

end

theorem jsize_pos : ∀ j : Json, 1 ≤ jsize j
  | .null | .bool _ | .int _ | .str _ => le_refl 1
  | .arr [] => le_refl 1
  | .arr (_ :: _) => Nat.le_add_right 1 _
  | .obj [] => le_refl 1
  | .obj (_ :: _) => Nat.le_add_right 1 _

/-! #### Digit characters -/

theorem digCh_lt10 {d : Nat} (h : d < 10) :
    (digCh d).toNat = 48 + d ∧ isDig (digCh d) = true ∧ digVal (digCh d) = d := by
  interval_cases d <;> exact ⟨rfl, rfl, rfl⟩

theorem isDig_toNat {c : Char} (h : isDig c = true) : 48 ≤ c.toNat ∧ c.toNat ≤ 57 := by
  simp [isDig] at h
  exact h

/-- A character whose digit-hood differs from `c`'s cannot be `c`. -/
theorem ne_of_isDig {c : Char} (h : isDig c = true) (d : Char) (hd : isDig d = false) :
    c ≠ d := by
  intro he
  rw [he, hd] at h
  exact Bool.false_ne_true h

/-- A digit cannot be any of the parser's structural dispatch characters. -/
theorem isDig_ne {c : Char} (h : isDig c = true) :
    c ≠ '"' ∧ c ≠ '[' ∧ c ≠ '{' ∧ c ≠ 'n' ∧ c ≠ 't' ∧ c ≠ 'f' ∧ c ≠ '-' ∧
    c ≠ ',' ∧ c ≠ ']' ∧ c ≠ '}' ∧ c ≠ ':' ∧ isJsonWs c = false := by
  refine ⟨ne_of_isDig h _ (by decide), ne_of_isDig h _ (by decide),
    ne_of_isDig h _ (by decide), ne_of_isDig h _ (by decide),
    ne_of_isDig h _ (by decide), ne_of_isDig h _ (by decide),
    ne_of_isDig h _ (by decide), ne_of_isDig h _ (by decide),
    ne_of_isDig h _ (by decide), ne_of_isDig h _ (by decide),
    ne_of_isDig h _ (by decide), ?_⟩
  simp [isJsonWs, ne_of_isDig h ' ' (by decide), ne_of_isDig h '\t' (by decide),
    ne_of_isDig h '\n' (by decide), ne_of_isDig h '\r' (by decide)]

theorem hexVal_hexCh {d : Nat} (h : d < 16) : hexVal (hexCh d) = some d := by
  interval_cases d <;> rfl

/-! #### `takeWhile`/`dropWhile` over a qualified run -/

theorem takeWhile_all_append {p : Char → Bool} :
    ∀ ds rest : List Char, (∀ c ∈ ds, p c = true) →
      (ds ++ rest).takeWhile p = ds ++ rest.takeWhile p := by
  intro ds
  induction ds with
  | nil => intro rest _; rfl
  | cons c cs ih =>
    intro rest h
    have hc : p c = true := h c (List.mem_cons_self c cs)
    simp only [List.cons_append, List.takeWhile_cons, hc, if_true]
    rw [ih rest fun x hx => h x (List.mem_cons_of_mem c hx)]

theorem dropWhile_all_append {p : Char → Bool} :
    ∀ ds rest : List Char, (∀ c ∈ ds, p c = true) →
      (ds ++ rest).dropWhile p = rest.dropWhile p := by
  intro ds
  induction ds with
  | nil => intro rest _; rfl
  | cons c cs ih =>
    intro rest h
    have hc : p c = true := h c (List.mem_cons_self c cs)
    simp only [List.cons_append, List.dropWhile_cons, hc, if_true]
    exact ih rest fun x hx => h x (List.mem_cons_of_mem c hx)

/-- A list whose head fails the predicate is untouched by `takeWhile` and
`dropWhile`. -/
theorem takeWhile_head_false {p : Char → Bool} :
    ∀ rest : List Char, (∀ c t, rest = c :: t → p c = false) →
      rest.takeWhile p = [] ∧ rest.dropWhile p = rest := by
  intro rest h
  cases rest with
  | nil => exact ⟨rfl, rfl⟩
  | cons c t => simp [List.takeWhile_cons, List.dropWhile_cons, h c t rfl]

/-! #### Number rendering round trip -/

theorem natRender_digits (n : Nat) :
    natRender n ≠ [] ∧ (∀ c ∈ natRender n, isDig c = true) := by
  unfold natRender
  by_cases h0 : n = 0
  · rw [if_pos h0]
    refine ⟨by simp, ?_⟩
    intro c hc
    simp only [List.mem_singleton] at hc
    subst hc
    decide
  · rw [if_neg h0]
    constructor
    · simp [Nat.digits_ne_nil_iff_ne_zero.mpr h0]
    · intro c hc
      rcases List.mem_map.mp (List.mem_reverse.mp hc) with ⟨d, hd, hcd⟩
      have hlt : d < 10 := Nat.digits_lt_base (by norm_num) hd
      exact hcd ▸ (digCh_lt10 hlt).2.1

theorem foldr_digits_ofDigits :
    ∀ L : List Nat, (∀ d ∈ L, d < 10) →
      L.foldr (fun d a => a * 10 + digVal (digCh d)) 0 = Nat.ofDigits 10 L := by
  intro L
  induction L with
  | nil => intro _; simp [Nat.ofDigits]
  | cons d L ih =>
    intro h
    have hd : d < 10 := h d (List.mem_cons_self d L)
    simp only [List.foldr_cons, Nat.ofDigits_cons,
      ih fun x hx => h x (List.mem_cons_of_mem d hx), (digCh_lt10 hd).2.2]
    ring

theorem digitsVal_natRender (n : Nat) : digitsVal (natRender n) = n := by
  unfold natRender digitsVal
  by_cases h0 : n = 0
  · simp [h0, digVal]
  · rw [if_neg h0, List.foldl_reverse, List.foldr_map]
    have := foldr_digits_ofDigits (Nat.digits 10 n)
      (fun d hd => Nat.digits_lt_base (by norm_num) hd)
    rw [this, Nat.ofDigits_digits]

/-- A list not beginning with a digit. -/
def NoDigHead (rest : List Char) : Prop :=
  ∀ c t, rest = c :: t → isDig c = false

theorem parseNatTok_render (n : Nat) (rest : List Char) (h : NoDigHead rest) :
    parseNatTok (natRender n ++ rest) = some (n, rest) := by
  obtain ⟨hne, hdig⟩ := natRender_digits n
  obtain ⟨htk, hdr⟩ := takeWhile_head_false rest h
  unfold parseNatTok
  rw [takeWhile_all_append _ _ hdig, dropWhile_all_append _ _ hdig, htk, hdr,
    List.append_nil]
  rw [if_neg (by simpa [List.isEmpty_iff] using hne)]
  rw [digitsVal_natRender]

theorem parseIntTok_render (n : Int) (rest : List Char) (h : NoDigHead rest) :
    parseIntTok (intRender n ++ rest) = some (n, rest) := by
  unfold intRender
  by_cases hneg : n < 0
  · rw [if_pos hneg]
    simp only [List.cons_append, parseIntTok, if_pos rfl, if_true,
      parseNatTok_render _ _ h, Option.map_some']
    have hval : -((n.natAbs : Nat) : Int) = n := by omega
    rw [hval]
  · rw [if_neg hneg]
    obtain ⟨hne, hdig⟩ := natRender_digits n.natAbs
    obtain ⟨c, t, hct⟩ : ∃ c t, natRender n.natAbs = c :: t := by
      cases hcs : natRender n.natAbs with
      | nil => exact absurd hcs hne
      | cons c t => exact ⟨c, t, rfl⟩
    have hc : isDig c = true := hdig c (hct ▸ List.mem_cons_self c t)
    rw [hct, List.cons_append]
    simp only [parseIntTok, if_neg (isDig_ne hc).2.2.2.2.2.2.1]
    rw [← List.cons_append, ← hct, parseNatTok_render _ _ h]
    simp only [Option.map_some']
    have hval : ((n.natAbs : Nat) : Int) = n := by omega
    rw [hval]

/-! #### String escaping round trip -/

theorem parseStrBody_escapeChar (c : Char) (t : List Char) :
    parseStrBody (escapeChar c ++ t) =
      (parseStrBody t).map fun sr => (c :: sr.1, sr.2) := by
  unfold escapeChar
  by_cases h1 : c = '"'
  · subst h1; simp [parseStrBody, unescCh]
  · rw [if_neg h1]
    by_cases h2 : c = '\\'
    · subst h2; simp [parseStrBody, unescCh]
    · rw [if_neg h2]
      by_cases h3 : c = '\n'
      · subst h3; simp [parseStrBody, unescCh]
      · rw [if_neg h3]
        by_cases h4 : c = '\t'
        · subst h4; simp [parseStrBody, unescCh]
        · rw [if_neg h4]
          by_cases h5 : c = '\r'
          · subst h5; simp [parseStrBody, unescCh]
          · rw [if_neg h5]
            by_cases h6 : c = Char.ofNat 8
            · subst h6; simp [parseStrBody, unescCh]
            · rw [if_neg h6]
              by_cases h7 : c = Char.ofNat 12
              · subst h7; simp [parseStrBody, unescCh]
              · rw [if_neg h7]
                by_cases h8 : c.toNat < 32
                · rw [if_pos h8]
                  have hq : c.toNat / 16 < 16 := by omega
                  have hr : c.toNat % 16 < 16 := by omega
                  simp only [List.cons_append, List.nil_append, parseStrBody,
                    if_neg (by decide : ¬('\\' : Char) = '"'), if_pos rfl, if_true,
                    hexVal_hexCh hq, hexVal_hexCh hr,
                    (by decide : hexVal '0' = some 0)]
                  have hval : ((0 * 16 + 0) * 16 + c.toNat / 16) * 16 + c.toNat % 16
                      = c.toNat := by omega
                  rw [hval, Char.ofNat_toNat]
                  simp
                · rw [if_neg h8]
                  rw [parseStrBody.eq_def]
                  simp [h1, h2]

theorem parseStrBody_enc :
    ∀ (s : List Char) (rest : List Char),
      parseStrBody ((s.map escapeChar).flatten ++ '"' :: rest) = some (s, rest) := by
  intro s
  induction s with
  | nil =>
    intro rest
    rw [parseStrBody.eq_def]
    simp
  | cons c s ih =>
    intro rest
    simp only [List.map_cons, List.flatten_cons, List.append_assoc]
    rw [parseStrBody_escapeChar, ih rest]
    rfl

/-! #### Head characters of rendered values -/

theorem skipWs_cons_of {c : Char} (t : List Char) (h : isJsonWs c = false) :
    skipWs (c :: t) = c :: t := by
  simp [skipWs, List.dropWhile_cons, h]

/-- Every rendered JSON value begins with a non-whitespace character that is
none of the closing/separator characters. -/
theorem render_head (j : Json) :
    ∃ c t, Json.render j = c :: t ∧ isJsonWs c = false ∧ c ≠ ']' ∧ c ≠ '}' ∧ c ≠ ',' := by
  cases j with
  | null => exact ⟨'n', _, rfl, by decide, by decide, by decide, by decide⟩
  | bool b =>
    cases b with
    | true => exact ⟨'t', _, rfl, by decide, by decide, by decide, by decide⟩
    | false => exact ⟨'f', _, rfl, by decide, by decide, by decide, by decide⟩
  | int n =>
    show ∃ c t, intRender n = c :: t ∧ _
    unfold intRender
    by_cases hneg : n < 0
    · rw [if_pos hneg]
      exact ⟨'-', _, rfl, by decide, by decide, by decide, by decide⟩
    · rw [if_neg hneg]
      obtain ⟨hne, hdig⟩ := natRender_digits n.natAbs
      obtain ⟨c, t, hct⟩ : ∃ c t, natRender n.natAbs = c :: t := by
        cases hcs : natRender n.natAbs with
        | nil => exact absurd hcs hne
        | cons c t => exact ⟨c, t, rfl⟩
      have hc : isDig c = true := hdig c (hct ▸ List.mem_cons_self c t)
      obtain ⟨-, -, -, -, -, -, -, -, hne1, hne2, -, hws⟩ := isDig_ne hc
      exact ⟨c, t, hct, hws, hne1, hne2, (isDig_ne hc).2.2.2.2.2.2.2.1⟩
  | str s => exact ⟨'"', _, rfl, by decide, by decide, by decide, by decide⟩
  | arr xs =>
    cases xs with
    | nil => exact ⟨'[', _, rfl, by decide, by decide, by decide, by decide⟩
    | cons x xs => exact ⟨'[', _, rfl, by decide, by decide, by decide, by decide⟩
  | obj ms =>
    cases ms with
    | nil => exact ⟨'{', _, rfl, by decide, by decide, by decide, by decide⟩
    | cons m ms => exact ⟨'{', _, rfl, by decide, by decide, by decide, by decide⟩

/-! #### The parse-after-print theorem -/

/-- What may legally follow a rendered value inside a document: nothing, or a
separator/closer.  (Needed so number parsing stops at the right place.) -/
def Delim (rest : List Char) : Prop :=
  rest = [] ∨ (∃ t, rest = ',' :: t) ∨ (∃ t, rest = ']' :: t) ∨ (∃ t, rest = '}' :: t)

theorem Delim.noDigHead {rest : List Char} (h : Delim rest) : NoDigHead rest := by
  intro c t hct
  rcases h with rfl | ⟨t', rfl⟩ | ⟨t', rfl⟩ | ⟨t', rfl⟩
  · exact absurd hct (by simp)
  all_goals (injection hct with h1 _; subst h1; decide)

theorem skipWs_render_append (j : Json) (X : List Char) :
    skipWs (Json.render j ++ X) = Json.render j ++ X := by
  obtain ⟨c, t, hct, hws, -, -, -⟩ := render_head j
  rw [hct, List.cons_append, skipWs_cons_of _ hws]

theorem skipWs_space (D : List Char) : skipWs (' ' :: D) = skipWs D := by
  simp [skipWs, List.dropWhile_cons, isJsonWs]

/-- The shape of one rendered object member. -/
theorem renderMem_shape (k : List Char) (v : Json) :
    Json.renderMem (k, v) =
      '"' :: ((k.map escapeChar).flatten ++ ('"' :: ':' :: ' ' :: Json.render v)) := by
  simp [Json.renderMem, encStr]

/-- An integer's rendering starts with a character that falls through every
structural dispatch branch of `parseVal`. -/
theorem intRender_head (n : Int) :
    ∃ c t, intRender n = c :: t ∧ isJsonWs c = false ∧ c ≠ '"' ∧ c ≠ '[' ∧
      c ≠ '{' ∧ c ≠ 'n' ∧ c ≠ 't' ∧ c ≠ 'f' := by
  unfold intRender
  by_cases hneg : n < 0
  · rw [if_pos hneg]
    exact ⟨'-', _, rfl, by decide, by decide, by decide, by decide, by decide,
      by decide, by decide⟩
  · rw [if_neg hneg]
    obtain ⟨hne, hdig⟩ := natRender_digits n.natAbs
    obtain ⟨c, t, hct⟩ : ∃ c t, natRender n.natAbs = c :: t := by
      cases hcs : natRender n.natAbs with
      | nil => exact absurd hcs hne
      | cons c t => exact ⟨c, t, rfl⟩
    have hc : isDig c = true := hdig c (hct ▸ List.mem_cons_self c t)
    obtain ⟨hq, hlb, hcb, hn, ht, hf, -, -, -, -, -, hws⟩ := isDig_ne hc
    exact ⟨c, t, hct, hws, hq, hlb, hcb, hn, ht, hf⟩

/-- Parsing after printing, all three parsers at once, by induction on the
fuel.  `parseVal` consumes exactly one rendered value; the element and member
parsers consume a rendered nonempty list up to its closing bracket. -/
theorem parse_render_all : ∀ f : Nat,
    (∀ (j : Json) (rest : List Char), jsize j ≤ f → Delim rest →
       parseVal f (Json.render j ++ rest) = some (j, rest)) ∧
    (∀ (x : Json) (xs : List Json) (rest : List Char), jsizeE (x :: xs) ≤ f →
       parseElems f (Json.render x ++ (Json.renderTail xs ++ ']' :: rest)) =
         some (x :: xs, rest)) ∧
    (∀ (k : List Char) (v : Json) (ms : List (List Char × Json)) (rest : List Char),
       jsizeM ((k, v) :: ms) ≤ f →
       parseMembers f (Json.renderMem (k, v) ++ (Json.renderMemTail ms ++ '}' :: rest)) =
         some ((k, v) :: ms, rest)) := by
  intro f
  induction f with
  | zero =>
    refine ⟨?_, ?_, ?_⟩
    · intro j rest hsz _
      exact absurd hsz (by have := jsize_pos j; omega)
    · intro x xs rest hsz
      exact absurd hsz (by simp [jsizeE])
    · intro k v ms rest hsz
      exact absurd hsz (by simp [jsizeM])
  | succ f ih =>
    obtain ⟨ihV, ihE, ihM⟩ := ih
    refine ⟨?_, ?_, ?_⟩
    · -- parseVal consumes one rendered value
      intro j rest hsz hdel
      cases j with
      | null => simp [Json.render, parseVal, skipWs, isJsonWs]
      | bool b => cases b <;> simp [Json.render, parseVal, skipWs, isJsonWs]
      | int n =>
        obtain ⟨c, t, hct, hws, hq, hlb, hcb, hn, ht, hf⟩ := intRender_head n
        have hren : Json.render (.int n) = intRender n := rfl
        rw [hren, hct, List.cons_append]
        simp only [parseVal]
        rw [skipWs_cons_of _ hws]
        simp only [if_neg hq, if_neg hlb, if_neg hcb, if_neg hn, if_neg ht, if_neg hf]
        rw [← List.cons_append, ← hct, parseIntTok_render n rest hdel.noDigHead]
        rfl
      | str s =>
        have hren : Json.render (.str s) ++ rest =
            '"' :: ((s.map escapeChar).flatten ++ '"' :: rest) := by
          simp [Json.render, encStr]
        rw [hren]
        simp only [parseVal]
        rw [skipWs_cons_of _ (by decide)]
        simp only [if_pos rfl, if_true]
        rw [parseStrBody_enc s rest]
        rfl
      | arr xs =>
        cases xs with
        | nil => simp [Json.render, parseVal, skipWs, isJsonWs]
        | cons x xs =>
          have hsz' : jsizeE (x :: xs) ≤ f := by
            have : jsize (Json.arr (x :: xs)) = 1 + jsizeE (x :: xs) := rfl
            omega
          have hren : Json.render (.arr (x :: xs)) ++ rest =
              '[' :: (Json.render x ++ (Json.renderTail xs ++ ']' :: rest)) := by
            simp [Json.render]
          rw [hren]
          simp only [parseVal]
          rw [skipWs_cons_of _ (by decide)]
          simp only [if_neg (by decide : ¬('[' : Char) = '"'), if_pos rfl, if_true]
          obtain ⟨c, t, hct, hws, hrb, -, -⟩ := render_head x
          rw [hct, List.cons_append, skipWs_cons_of _ hws]
          simp only [if_neg hrb]
          rw [← List.cons_append, ← hct, ihE x xs rest hsz']
          rfl
      | obj ms =>
        cases ms with
        | nil => simp [Json.render, parseVal, skipWs, isJsonWs]
        | cons m ms =>
          obtain ⟨k, v⟩ := m
          have hsz' : jsizeM ((k, v) :: ms) ≤ f := by
            have : jsize (Json.obj ((k, v) :: ms)) = 1 + jsizeM ((k, v) :: ms) := rfl
            omega
          have hren : Json.render (.obj ((k, v) :: ms)) ++ rest =
              '{' :: (Json.renderMem (k, v) ++ (Json.renderMemTail ms ++ '}' :: rest)) := by
            simp [Json.render]
          rw [hren]
          simp only [parseVal]
          rw [skipWs_cons_of _ (by decide)]
          simp only [if_neg (by decide : ¬('{' : Char) = '"'),
            if_neg (by decide : ¬('{' : Char) = '['), if_pos rfl, if_true]
          rw [renderMem_shape, List.cons_append, skipWs_cons_of _ (by decide)]
          simp only [if_neg (by decide : ¬('"' : Char) = '}')]
          rw [← List.cons_append, ← renderMem_shape, ihM k v ms rest hsz']
          rfl
    · -- parseElems consumes a rendered element list up to `]`
      intro x xs rest hsz
      have hmax : Nat.max (jsize x) (jsizeE xs) ≤ f := by
        have h1 : jsizeE (x :: xs) = 1 + Nat.max (jsize x) (jsizeE xs) := rfl
        omega
      have hszx : jsize x ≤ f := le_trans (Nat.le_max_left _ _) hmax
      have hszxs : jsizeE xs ≤ f := le_trans (Nat.le_max_right _ _) hmax
      have hdelX : Delim (Json.renderTail xs ++ ']' :: rest) := by
        cases xs with
        | nil => exact Or.inr (Or.inr (Or.inl ⟨rest, by simp [Json.renderTail]⟩))
        | cons y ys =>
          exact Or.inr (Or.inl ⟨' ' :: (Json.render y ++ Json.renderTail ys) ++
            ']' :: rest, by simp [Json.renderTail]⟩)
      simp only [parseElems]
      rw [ihV x _ hszx hdelX]
      dsimp only
      cases xs with
      | nil =>
        have hX : Json.renderTail ([] : List Json) ++ ']' :: rest = ']' :: rest := by
          simp [Json.renderTail]
        rw [hX, skipWs_cons_of _ (by decide)]
        dsimp only
        rw [if_neg (by decide : ¬(']' : Char) = ','), if_pos rfl]
      | cons y ys =>
        have hX : Json.renderTail (y :: ys) ++ ']' :: rest =
            ',' :: ' ' :: (Json.render y ++ (Json.renderTail ys ++ ']' :: rest)) := by
          simp [Json.renderTail]
        rw [hX, skipWs_cons_of _ (by decide)]
        dsimp only
        rw [if_pos rfl, skipWs_space, skipWs_render_append, ihE y ys rest hszxs]
    · -- parseMembers consumes a rendered member list up to `\x7d`
      intro k v ms rest hsz
      have hmax : Nat.max (jsize v) (jsizeM ms) ≤ f := by
        have h1 : jsizeM ((k, v) :: ms) = 1 + Nat.max (jsize v) (jsizeM ms) := rfl
        omega
      have hszv : jsize v ≤ f := le_trans (Nat.le_max_left _ _) hmax
      have hszms : jsizeM ms ≤ f := le_trans (Nat.le_max_right _ _) hmax
      have hdelX : Delim (Json.renderMemTail ms ++ '}' :: rest) := by
        cases ms with
        | nil => exact Or.inr (Or.inr (Or.inr ⟨rest, by simp [Json.renderMemTail]⟩))
        | cons m2 ms2 =>
          exact Or.inr (Or.inl ⟨' ' :: (Json.renderMem m2 ++ Json.renderMemTail ms2) ++
            '}' :: rest, by simp [Json.renderMemTail]⟩)
      have hshape : Json.renderMem (k, v) ++ (Json.renderMemTail ms ++ '}' :: rest) =
          '"' :: ((k.map escapeChar).flatten ++
            ('"' :: (':' :: ' ' :: (Json.render v ++ (Json.renderMemTail ms ++ '}' :: rest))))) := by
        rw [renderMem_shape]
        simp
      rw [hshape]
      simp only [parseMembers]
      rw [parseStrBody_enc k]
      dsimp only
      rw [skipWs_cons_of _ (by decide)]
      dsimp only
      rw [if_pos rfl, skipWs_space, skipWs_render_append, ihV v _ hszv hdelX]
      dsimp only
      cases ms with
      | nil =>
        have hX : Json.renderMemTail ([] : List (List Char × Json)) ++ '}' :: rest =
            '}' :: rest := by simp [Json.renderMemTail]
        rw [hX, skipWs_cons_of _ (by decide)]
        dsimp only
        rw [if_neg (by decide : ¬('}' : Char) = ',')]
        simp
      | cons m2 ms2 =>
        obtain ⟨k2, v2⟩ := m2
        have hX : Json.renderMemTail ((k2, v2) :: ms2) ++ '}' :: rest =
            ',' :: ' ' :: (Json.renderMem (k2, v2) ++ (Json.renderMemTail ms2 ++ '}' :: rest)) := by
          simp [Json.renderMemTail]
        rw [hX, skipWs_cons_of _ (by decide)]
        dsimp only
        rw [if_pos rfl, skipWs_space]
        rw [show skipWs (Json.renderMem (k2, v2) ++ (Json.renderMemTail ms2 ++ '}' :: rest)) =
            Json.renderMem (k2, v2) ++ (Json.renderMemTail ms2 ++ '}' :: rest) by
          rw [renderMem_shape, List.cons_append, skipWs_cons_of _ (by decide)]]
        rw [ihM k2 v2 ms2 rest hszms]
        simp

theorem render_length_pos (j : Json) : 1 ≤ (Json.render j).length := by
  obtain ⟨c, t, hct, -⟩ := render_head j
  simp [hct]

theorem encStr_length (k : List Char) :
    (encStr k).length = (k.map escapeChar).flatten.length + 2 := by
  simp [encStr]

mutual

theorem jsize_le_render : ∀ j : Json, jsize j ≤ (Json.render j).length
  | .null => by simp [jsize, Json.render]
  | .bool b => by cases b <;> simp [jsize, Json.render]
  | .int n => by
    have := render_length_pos (.int n)
    simpa [jsize] using this
  | .str s => by
    have := render_length_pos (.str s)
    simpa [jsize] using this
  | .arr [] => by simp [jsize, Json.render]
  | .arr (x :: xs) => by
    have h1 := jsize_le_render x
    have h2 := jsizeE_le_render xs
    have h3 := render_length_pos x
    have e1 : jsize (Json.arr (x :: xs)) = 1 + jsizeE (x :: xs) := rfl
    have e2 : jsizeE (x :: xs) = 1 + Nat.max (jsize x) (jsizeE xs) := rfl
    have e3 : (Json.render (Json.arr (x :: xs))).length =
        2 + (Json.render x).length + (Json.renderTail xs).length := by
      simp [Json.render]
      omega
    have hm : Nat.max (jsize x) (jsizeE xs) ≤
        (Json.render x).length + (Json.renderTail xs).length :=
      Nat.max_le.mpr ⟨by omega, by omega⟩
    omega
  | .obj [] => by simp [jsize, Json.render]
  | .obj (m :: ms) => by
    have h1 := jsize_le_render m.2
    have h2 := jsizeM_le_render ms
    have h3 := render_length_pos m.2
    have e1 : jsize (Json.obj (m :: ms)) = 1 + jsizeM (m :: ms) := rfl
    have e2 : jsizeM (m :: ms) = 1 + Nat.max (jsize m.2) (jsizeM ms) := rfl
    have e3 : (Json.render (Json.obj (m :: ms))).length =
        2 + (Json.renderMem m).length + (Json.renderMemTail ms).length := by
      simp [Json.render]
      omega
    have e4 : (Json.renderMem m).length =
        (encStr m.1).length + 2 + (Json.render m.2).length := by
      obtain ⟨k, v⟩ := m
      simp [Json.renderMem]
      omega
    have e5 : 2 ≤ (encStr m.1).length := by rw [encStr_length]; omega
    have hm : Nat.max (jsize m.2) (jsizeM ms) ≤
        (Json.renderMem m).length + (Json.renderMemTail ms).length :=
      Nat.max_le.mpr ⟨by omega, by omega⟩
    omega

theorem jsizeE_le_render : ∀ xs : List Json,
    jsizeE xs ≤ (Json.renderTail xs).length + 1
  | [] => by simp [jsizeE]
  | x :: xs => by
    have h1 := jsize_le_render x
    have h2 := jsizeE_le_render xs
    have e2 : jsizeE (x :: xs) = 1 + Nat.max (jsize x) (jsizeE xs) := rfl
    have e3 : (Json.renderTail (x :: xs)).length =
        2 + (Json.render x).length + (Json.renderTail xs).length := by
      simp [Json.renderTail]
      omega
    have hm : Nat.max (jsize x) (jsizeE xs) ≤
        (Json.render x).length + (Json.renderTail xs).length + 1 :=
      Nat.max_le.mpr ⟨by omega, by omega⟩
    omega

theorem jsizeM_le_render : ∀ ms : List (List Char × Json),
    jsizeM ms ≤ (Json.renderMemTail ms).length + 1
  | [] => by simp [jsizeM]
  | m :: ms => by
    have h1 := jsize_le_render m.2
    have h2 := jsizeM_le_render ms
    have e2 : jsizeM (m :: ms) = 1 + Nat.max (jsize m.2) (jsizeM ms) := rfl
    have e3 : (Json.renderMemTail (m :: ms)).length =
        2 + (Json.renderMem m).length + (Json.renderMemTail ms).length := by
      simp [Json.renderMemTail]
      omega
    have e4 : (Json.renderMem m).length =
        (encStr m.1).length + 2 + (Json.render m.2).length := by
      obtain ⟨k, v⟩ := m
      simp [Json.renderMem]
      omega
    have e5 : 2 ≤ (encStr m.1).length := by rw [encStr_length]; omega
    have hm : Nat.max (jsize m.2) (jsizeM ms) ≤
        (Json.renderMem m).length + (Json.renderMemTail ms).length + 1 :=
      Nat.max_le.mpr ⟨by omega, by omega⟩
    omega

end

/-- The `json.loads`/`json.dumps` round trip: deserializing a serialized
value recovers it exactly. -/
theorem loads_render (j : Json) : Json.loads (Json.render j) = some j := by
  unfold Json.loads
  have hsz : jsize j ≤ (Json.render j).length + 1 :=
    le_trans (jsize_le_render j) (Nat.le_succ _)
  have h := (parse_render_all ((Json.render j).length + 1)).1 j [] hsz (Or.inl rfl)
  rw [List.append_nil] at h
  rw [h]
  rfl

example :
    Json.loads (Json.render (Json.obj [(['a'], Json.str ['x', '"', 'y']),
      (['b'], Json.arr [Json.str ['\\'], Json.null, Json.bool true])])) =
    some (Json.obj [(['a'], Json.str ['x', '"', 'y']),
      (['b'], Json.arr [Json.str ['\\'], Json.null, Json.bool true])]) := rfl

/-! ## The Record Store (`db.py`)

One SQLite table `permits`, modelled as a list of rows in rowid order.  The
`id INTEGER PRIMARY KEY AUTOINCREMENT` column is determined by the position
in the list and carries no information used by any query, so it is omitted
from the row structure.  `details_json` is the `TEXT` column holding
`json.dumps(details)`. -/

structure PermitRow where
  permit_number : String
  address : Option String
  lat : Option ℚ
  lon : Option ℚ
  details_json : List Char
  thumbnail_path : Option String
  scraped_at : String
deriving DecidableEq

/-- Byte-wise string comparison: SQLite's default `BINARY` collation
(`memcmp`, shorter prefix first), restricted to ASCII as all `scraped_at`
values are ISO-8601 text. -/
def bytesLe : List Char → List Char → Bool
  | [], _ => true
  | _ :: _, [] => false
  | a :: as, b :: bs =>
    if a.toNat < b.toNat then true
    else if b.toNat < a.toNat then false
    else bytesLe as bs

/-- `ORDER BY scraped_at DESC` comparison. -/
def scrapedDesc (r s : PermitRow) : Prop :=
  bytesLe s.scraped_at.data r.scraped_at.data = true

/-- `ORDER BY scraped_at ASC` comparison. -/
def scrapedAsc (r s : PermitRow) : Prop :=
  bytesLe r.scraped_at.data s.scraped_at.data = true

instance : DecidableRel scrapedDesc := fun _ _ => instDecidableEqBool _ _

instance : DecidableRel scrapedAsc := fun _ _ => instDecidableEqBool _ _

/-- Validity of the `HH:MM[:SS[.fff...]]` part of an ISO-8601 timestamp, as
SQLite's date functions accept it. -/
def validTimeTail : List Char → Bool
  | [] => true
  | ':' :: s1 :: s2 :: rest =>
    isDig s1 && isDig s2 && digitsVal [s1, s2] ≤ 59 &&
      (match rest with
       | [] => true
       | '.' :: fs => !fs.isEmpty && fs.all isDig
       | _ => false)
  | _ => false

/-- Validity of the time-of-day part of an ISO-8601 timestamp. -/
def validTime : List Char → Bool
  | h1 :: h2 :: ':' :: m1 :: m2 :: rest =>
    isDig h1 && isDig h2 && isDig m1 && isDig m2 &&
      digitsVal [h1, h2] ≤ 24 && digitsVal [m1, m2] ≤ 59 && validTimeTail rest
  | _ => false

/-- Model of SQLite's `date(X)` on ISO-8601 text: the `YYYY-MM-DD` prefix of
a valid date or date-time string, `NULL` (`none`) otherwise. -/
def sqliteDate : List Char → Option (List Char)
  | y1 :: y2 :: y3 :: y4 :: '-' :: m1 :: m2 :: '-' :: d1 :: d2 :: rest =>
    if isDig y1 && isDig y2 && isDig y3 && isDig y4 &&
        isDig m1 && isDig m2 && isDig d1 && isDig d2 &&
        1 ≤ digitsVal [m1, m2] && digitsVal [m1, m2] ≤ 12 &&
        1 ≤ digitsVal [d1, d2] && digitsVal [d1, d2] ≤ 31 &&
        (match rest with
         | [] => true
         | 'T' :: t => validTime t
         | ' ' :: t => validTime t
         | _ => false) then
      some [y1, y2, y3, y4, '-', m1, m2, '-', d1, d2]
    else none
  | _ => none

/-- The `WHERE date(scraped_at) = date(?)` predicate; a `NULL` on either side
compares unequal in SQL. -/
def sameDate (a b : String) : Bool :=
  match sqliteDate a.data, sqliteDate b.data with
  | some x, some y => x == y
  | _, _ => false

/-- `DB.upsert_permit`: `INSERT ... ON CONFLICT(permit_number) DO UPDATE SET`
every non-key column to the excluded row's values — a full-field replace of
the single conflicting row, or an append when the key is new. -/
def upsert_permit (db : List PermitRow) (pn : String) (addr : Option String)
    (lat lon : Option ℚ) (details : Json) (scraped_at : String)
    (thumb : Option String) : List PermitRow :=
  let row : PermitRow :=
    { permit_number := pn, address := addr, lat := lat, lon := lon,
      details_json := details.render, thumbnail_path := thumb,
      scraped_at := scraped_at }
  if db.any (fun r => r.permit_number == pn) then
    db.map fun r => if r.permit_number == pn then row else r
  else
    db ++ [row]

/-- `DB.get_recent`: `SELECT * FROM permits ORDER BY scraped_at DESC LIMIT ?`. -/
def get_recent (db : List PermitRow) (limit : Nat) : List PermitRow :=
  (db.insertionSort scrapedDesc).take limit

/-- `DB.get_since`:
`SELECT * FROM permits WHERE date(scraped_at) = date(?) ORDER BY scraped_at ASC`. -/
def get_since (db : List PermitRow) (since_date : String) : List PermitRow :=
  ((db.filter fun r => sameDate r.scraped_at since_date).insertionSort scrapedAsc)

/-- The schema invariant enforced by `permit_number TEXT UNIQUE`. -/
def keysUnique (db : List PermitRow) : Prop :=
  (db.map PermitRow.permit_number).Nodup

/-! ### Facts about the byte-wise collation order -/

theorem bytesLe_total : ∀ a b : List Char, bytesLe a b = true ∨ bytesLe b a = true := by
  intro a
  induction a with
  | nil => intro b; left; rfl
  | cons x xs ih =>
    intro b
    cases b with
    | nil => right; rfl
    | cons y ys =>
      by_cases h1 : x.toNat < y.toNat
      · left; simp [bytesLe, h1]
      · by_cases h2 : y.toNat < x.toNat
        · right; simp [bytesLe, h2]
        · rcases ih ys with h | h
          · left; simp [bytesLe, h1, h2, h]
          · right; simp [bytesLe, h1, h2, h]

theorem bytesLe_trans :
    ∀ a b c : List Char, bytesLe a b = true → bytesLe b c = true → bytesLe a c = true := by
  intro a
  induction a with
  | nil => intro b c _ _; rfl
  | cons x xs ih =>
    intro b c hab hbc
    cases b with
    | nil => simp [bytesLe] at hab
    | cons y ys =>
      cases c with
      | nil => simp [bytesLe] at hbc
      | cons z zs =>
        simp only [bytesLe] at hab hbc ⊢
        by_cases h1 : x.toNat < y.toNat <;> by_cases h2 : y.toNat < z.toNat
        · simp only [if_pos (by omega : x.toNat < z.toNat)]
        · simp only [if_pos h1] at hab
          by_cases h3 : z.toNat < y.toNat
          · simp [h2, h3] at hbc
          · have hyz : y.toNat = z.toNat := by omega
            simp only [if_pos (by omega : x.toNat < z.toNat)]
        · simp only [if_neg h1] at hab
          by_cases h3 : y.toNat < x.toNat
          · simp [h3] at hab
          · have hxy : x.toNat = y.toNat := by omega
            simp only [if_pos (by omega : x.toNat < z.toNat)]
        · simp only [if_neg h1] at hab
          by_cases h3 : y.toNat < x.toNat
          · simp [h3] at hab
          · by_cases h4 : z.toNat < y.toNat
            · simp [h2, h4] at hbc
            · simp only [if_neg h2, if_neg h4] at hbc
              simp only [if_neg h3] at hab
              have : ¬ x.toNat < z.toNat := by omega
              have : ¬ z.toNat < x.toNat := by omega
              simp only [if_neg ‹¬ x.toNat < z.toNat›, if_neg ‹¬ z.toNat < x.toNat›]
              exact ih ys zs hab hbc

instance : IsTotal PermitRow scrapedDesc :=
  ⟨fun a b => bytesLe_total b.scraped_at.data a.scraped_at.data⟩

instance : IsTrans PermitRow scrapedDesc :=
  ⟨fun _ _ _ hab hbc => bytesLe_trans _ _ _ hbc hab⟩

instance : IsTotal PermitRow scrapedAsc :=
  ⟨fun a b => bytesLe_total a.scraped_at.data b.scraped_at.data⟩

instance : IsTrans PermitRow scrapedAsc :=
  ⟨fun _ _ _ hab hbc => bytesLe_trans _ _ _ hab hbc⟩

/-! ### Facts about `upsert_permit` -/

/-- After an upsert of key `pn`, any row carrying key `pn` is exactly the
upserted row: the conflict resolution is a full-field replace. -/
theorem upsert_row_of_key (db : List PermitRow) (pn : String) (addr : Option String)
    (lat lon : Option ℚ) (details : Json) (scraped_at : String) (thumb : Option String) :
    ∀ r ∈ upsert_permit db pn addr lat lon details scraped_at thumb,
      r.permit_number = pn →
        r = { permit_number := pn, address := addr, lat := lat, lon := lon,
              details_json := details.render, thumbnail_path := thumb,
              scraped_at := scraped_at } := by
  intro r hr hkey
  unfold upsert_permit at hr
  by_cases hany : db.any (fun r => r.permit_number == pn)
  · rw [if_pos hany] at hr
    rcases List.mem_map.mp hr with ⟨r0, _, hr0⟩
    by_cases hm : r0.permit_number == pn
    · rw [if_pos hm] at hr0; exact hr0.symm
    · rw [if_neg hm] at hr0
      subst hr0
      exact absurd (beq_iff_eq.mpr hkey) hm
  · rw [if_neg hany] at hr
    rcases List.mem_append.mp hr with hr | hr
    · exfalso
      exact hany (List.any_eq_true.mpr ⟨r, hr, beq_iff_eq.mpr hkey⟩)
    · simpa using hr

/-- Key uniqueness gives at most one row per key. -/
theorem countP_key_le_one (db : List PermitRow) (pn : String) (h : keysUnique db) :
    db.countP (fun r => r.permit_number == pn) ≤ 1 := by
  induction db with
  | nil => simp
  | cons r rest ih =>
    rcases List.nodup_cons.mp h with ⟨hnot, hrest⟩
    by_cases hm : r.permit_number == pn
    · have hz : rest.countP (fun r => r.permit_number == pn) = 0 := by
        rw [List.countP_eq_zero]
        intro r' hr' hm'
        exact hnot (List.mem_map.mpr ⟨r', hr',
          ((beq_iff_eq.mp hm').trans (beq_iff_eq.mp hm).symm)⟩)
      simp [List.countP_cons, hm, hz]
    · simpa [List.countP_cons, hm] using ih hrest

/-- Upserting preserves the key-uniqueness invariant of the schema. -/
theorem upsert_keysUnique (db : List PermitRow) (pn : String) (addr : Option String)
    (lat lon : Option ℚ) (details : Json) (scraped_at : String) (thumb : Option String)
    (h : keysUnique db) :
    keysUnique (upsert_permit db pn addr lat lon details scraped_at thumb) := by
  unfold keysUnique upsert_permit
  by_cases hany : db.any (fun r => r.permit_number == pn)
  · rw [if_pos hany, List.map_map]
    have : (PermitRow.permit_number ∘ fun r =>
        if r.permit_number == pn then
          { permit_number := pn, address := addr, lat := lat, lon := lon,
            details_json := details.render, thumbnail_path := thumb,
            scraped_at := scraped_at } else r) = PermitRow.permit_number := by
      funext r
      by_cases hm : r.permit_number = pn
      · simp [hm]
      · simp [hm]
    rw [this]; exact h
  · rw [if_neg hany, List.map_append]
    refine List.Nodup.append h (List.nodup_singleton _) ?_
    intro x hx hx'
    simp only [List.map_cons, List.map_nil, List.mem_singleton] at hx'
    subst hx'
    rcases List.mem_map.mp hx with ⟨r, hr, hkey⟩
    exact hany (List.any_eq_true.mpr ⟨r, hr, beq_iff_eq.mpr hkey⟩)

/-- Replacing key-`pn` rows by another key-`pn` row preserves the per-key
row count. -/
theorem countP_map_replace (pn : String) (row : PermitRow) (hrow : row.permit_number = pn) :
    ∀ db : List PermitRow,
      (db.map fun r => if r.permit_number == pn then row else r).countP
        (fun r => r.permit_number == pn) =
      db.countP (fun r => r.permit_number == pn) := by
  intro db
  induction db with
  | nil => rfl
  | cons r rest ih =>
    simp only [List.map_cons, List.countP_cons, ih]
    by_cases hm : r.permit_number = pn <;> simp [hm, hrow]

/-- After upserting key `pn` into a store satisfying the schema invariant,
the store holds exactly one row with that key. -/
theorem upsert_countP_eq_one (db : List PermitRow) (pn : String) (addr : Option String)
    (lat lon : Option ℚ) (details : Json) (scraped_at : String) (thumb : Option String)
    (h : keysUnique db) :
    (upsert_permit db pn addr lat lon details scraped_at thumb).countP
      (fun r => r.permit_number == pn) = 1 := by
  unfold upsert_permit
  by_cases hany : db.any (fun r => r.permit_number == pn)
  · rw [if_pos hany]
    rcases List.any_eq_true.mp hany with ⟨r0, hr0, hm0⟩
    have hle := countP_key_le_one db pn h
    have hpos : 0 < db.countP (fun r => r.permit_number == pn) :=
      List.countP_pos_iff.mpr ⟨r0, hr0, hm0⟩
    have hcnt : db.countP (fun r => r.permit_number == pn) = 1 := by omega
    rw [countP_map_replace pn _ rfl db, hcnt]
  · rw [if_neg hany, List.countP_append]
    have hz : db.countP (fun r => r.permit_number == pn) = 0 := by
      rw [List.countP_eq_zero]
      intro r hr hm
      exact hany (List.any_eq_true.mpr ⟨r, hr, hm⟩)
    simp [hz, List.countP_cons]

/-- **C1.** Upserting the same `permit_number` twice with different payloads
leaves exactly one row for that key, and every non-key field of that row
(address, lat, lon, details, thumbnail_path, scraped_at) equals the second
call's arguments — a full-field replace, last-write-wins, whatever the first
call's arguments were. -/
theorem upsert_last_write_wins (db : List PermitRow) (pn : String)
    (a1 a2 : Option String) (la1 lo1 la2 lo2 : Option ℚ) (d1 d2 : Json)
    (s1 s2 : String) (t1 t2 : Option String) (h : keysUnique db) :
    (upsert_permit (upsert_permit db pn a1 la1 lo1 d1 s1 t1)
        pn a2 la2 lo2 d2 s2 t2).countP (fun r => r.permit_number == pn) = 1 ∧
    ∀ r ∈ upsert_permit (upsert_permit db pn a1 la1 lo1 d1 s1 t1)
        pn a2 la2 lo2 d2 s2 t2,
      r.permit_number = pn →
        r.address = a2 ∧ r.lat = la2 ∧ r.lon = lo2 ∧
        r.details_json = d2.render ∧ r.thumbnail_path = t2 ∧ r.scraped_at = s2 := by
  constructor
  · exact upsert_countP_eq_one _ pn a2 la2 lo2 d2 s2 t2
      (upsert_keysUnique db pn a1 la1 lo1 d1 s1 t1 h)
  · intro r hr hkey
    have := upsert_row_of_key _ pn a2 la2 lo2 d2 s2 t2 r hr hkey
    subst this
    exact ⟨rfl, rfl, rfl, rfl, rfl, rfl⟩

/-- Witness for C1 at a concrete store: the empty store, two different
payloads for permit `"TEST-1"`. -/
theorem upsert_last_write_wins_witness :
    keysUnique ([] : List PermitRow) ∧
    ((upsert_permit (upsert_permit [] "TEST-1" (some "1 Main St") (some 39) (some (-104))
          (Json.obj [(['a'], Json.int 1)]) "2025-11-13T00:00:00" none)
        "TEST-1" (some "2 Oak Ave") (some 40) (some (-105))
          (Json.obj [(['a'], Json.int 2)]) "2025-11-14T00:00:00"
          (some "thumbs/TEST-1.jpg")).countP
        (fun r => r.permit_number == "TEST-1") = 1 ∧
      ∀ r ∈ upsert_permit (upsert_permit [] "TEST-1" (some "1 Main St") (some 39)
            (some (-104)) (Json.obj [(['a'], Json.int 1)]) "2025-11-13T00:00:00" none)
          "TEST-1" (some "2 Oak Ave") (some 40) (some (-105))
          (Json.obj [(['a'], Json.int 2)]) "2025-11-14T00:00:00"
          (some "thumbs/TEST-1.jpg"),
        r.permit_number = "TEST-1" →
          r.address = some "2 Oak Ave" ∧ r.lat = some 40 ∧ r.lon = some (-105) ∧
          r.details_json = (Json.obj [(['a'], Json.int 2)]).render ∧
          r.thumbnail_path = some "thumbs/TEST-1.jpg" ∧
          r.scraped_at = "2025-11-14T00:00:00") :=
  ⟨List.nodup_nil, upsert_last_write_wins [] "TEST-1" (some "1 Main St") (some "2 Oak Ave")
    (some 39) (some (-104)) (some 40) (some (-105)) (Json.obj [(['a'], Json.int 1)])
    (Json.obj [(['a'], Json.int 2)]) "2025-11-13T00:00:00" "2025-11-14T00:00:00"
    none (some "thumbs/TEST-1.jpg") List.nodup_nil⟩

/-- **C2.** `get_recent k` returns at most `k` rows, sorted by `scraped_at`
descending; `get_since d` returns exactly the rows whose `scraped_at` falls
on the calendar date of `d` (a permutation of that filter of the store),
sorted by `scraped_at` ascending. -/
theorem get_recent_get_since_spec (db : List PermitRow) (k : Nat) (d : String) :
    (get_recent db k).length ≤ k ∧
    List.Sorted scrapedDesc (get_recent db k) ∧
    (get_since db d).Perm (db.filter fun r => sameDate r.scraped_at d) ∧
    List.Sorted scrapedAsc (get_since db d) := by
  refine ⟨List.length_take_le _ _, ?_, ?_, ?_⟩
  · exact List.Pairwise.sublist (List.take_sublist _ _)
      (List.sorted_insertionSort scrapedDesc db)
  · exact List.perm_insertionSort scrapedAsc _
  · exact List.sorted_insertionSort scrapedAsc _

/-! ## The two reader call sites of the store (`generate_report.py`, `thumbnails.py`) -/

/-- `render_report` (generate_report.py): the only place the `details` blob is
deserialized — `json.loads(rec['details_json']) if rec['details_json'] else
\x7b\x7d`, with a parse failure also yielding the empty mapping. -/
def report_read_details (dj : List Char) : Json :=
  if dj = [] then Json.obj [] else
    match Json.loads dj with
    | some v => v
    | none => Json.obj []

/-- `generate_recent_thumbnails` (thumbnails.py) re-upserts a row read from
`get_recent` after generating its thumbnail; the `details` argument it passes
is `r['details_json'] and r['details_json']` — the raw serialized TEXT blob
(a Python `str`), not the deserialized mapping. -/
def thumbnails_reupsert (db : List PermitRow) (r : PermitRow) (out : Option String) :
    List PermitRow :=
  upsert_permit db r.permit_number r.address r.lat r.lon (Json.str r.details_json)
    r.scraped_at out

/-- **C5, counterexample.** The read operations do *not* return `details`
deserialized: they return the serialized blob verbatim.  Concretely, after
upserting details `{"a": "b"}` for permit `"P1"`, the thumbnail generator's
read-and-rewrite pass stores the blob double-encoded, so a subsequent
deserializing read yields the JSON *string* `"{\"a\": \"b\"}"` — not the
original mapping, contradicting "read after upsert yields the same details
value" under the claim's reading that every read deserializes. -/
theorem details_read_not_deserialized_cex :
    report_read_details
      ((thumbnails_reupsert
          (upsert_permit [] "P1" none none none
            (Json.obj [(['a'], Json.str ['b'])]) "2025-11-13" none)
          ⟨"P1", none, none, none,
            Json.render (Json.obj [(['a'], Json.str ['b'])]), none, "2025-11-13"⟩
          (some "t.jpg")).headD
        ⟨"P1", none, none, none,
          Json.render (Json.obj [(['a'], Json.str ['b'])]), none, "2025-11-13"⟩).details_json
      = Json.str (Json.render (Json.obj [(['a'], Json.str ['b'])])) ∧
    Json.str (Json.render (Json.obj [(['a'], Json.str ['b'])]))
      ≠ Json.obj [(['a'], Json.str ['b'])] := by
  constructor
  · rfl
  · intro h
    exact Json.noConfusion h

/-- **C5, amended.** Every value stored in the `details_json` column by
`upsert_permit` is the JSON serialization of the `details` mapping passed in;
the read operations return the stored rows with that blob unchanged (they do
not deserialize); and deserializing the blob — as the report generator does on
read — recovers the original mapping exactly (`loads ∘ dumps = id`). -/
theorem details_blob_roundtrip (db : List PermitRow) (pn : String)
    (addr : Option String) (lat lon : Option ℚ) (details : Json) (s : String)
    (t : Option String) :
    (∀ r ∈ upsert_permit db pn addr lat lon details s t, r.permit_number = pn →
       r.details_json = Json.render details ∧
       Json.loads r.details_json = some details ∧
       report_read_details r.details_json = details) ∧
    (∀ (k : Nat) (r : PermitRow), r ∈ get_recent db k → r ∈ db) ∧
    (∀ (d : String) (r : PermitRow), r ∈ get_since db d → r ∈ db) := by
  refine ⟨?_, ?_, ?_⟩
  · intro r hr hkey
    have hrow := upsert_row_of_key db pn addr lat lon details s t r hr hkey
    have hdj : r.details_json = Json.render details := by rw [hrow]
    refine ⟨hdj, ?_, ?_⟩
    · rw [hdj, loads_render]
    · rw [hdj]
      unfold report_read_details
      have hne : Json.render details ≠ [] := by
        have := render_length_pos details
        intro he
        rw [he] at this
        simp at this
      rw [if_neg hne, loads_render]
  · intro k r hr
    have h1 : r ∈ db.insertionSort scrapedDesc := List.mem_of_mem_take hr
    exact ((List.perm_insertionSort scrapedDesc db).mem_iff).mp h1
  · intro d r hr
    have h1 := ((List.perm_insertionSort scrapedAsc _).mem_iff).mp hr
    exact (List.mem_filter.mp h1).1

/-- Witness for the amended C5 at a concrete store and payload. -/
theorem details_blob_roundtrip_witness :
    (⟨"P1", none, none, none,
        Json.render (Json.obj [(['a'], Json.str ['b'])]), none,
        "2025-11-13"⟩ : PermitRow) ∈
      upsert_permit [] "P1" none none none
        (Json.obj [(['a'], Json.str ['b'])]) "2025-11-13" none ∧
    ("P1" : String) = "P1" ∧
    ((⟨"P1", none, none, none,
        Json.render (Json.obj [(['a'], Json.str ['b'])]), none,
        "2025-11-13"⟩ : PermitRow).details_json =
        Json.render (Json.obj [(['a'], Json.str ['b'])]) ∧
      Json.loads (⟨"P1", none, none, none,
        Json.render (Json.obj [(['a'], Json.str ['b'])]), none,
        "2025-11-13"⟩ : PermitRow).details_json =
        some (Json.obj [(['a'], Json.str ['b'])]) ∧
      report_read_details (⟨"P1", none, none, none,
        Json.render (Json.obj [(['a'], Json.str ['b'])]), none,
        "2025-11-13"⟩ : PermitRow).details_json =
        Json.obj [(['a'], Json.str ['b'])]) := by
  refine ⟨?_, rfl, ?_⟩
  · simp [upsert_permit]
  · exact (details_blob_roundtrip [] "P1" none none none
      (Json.obj [(['a'], Json.str ['b'])]) "2025-11-13" none).1 _
      (by simp [upsert_permit]) rfl

/-! ## The Coordinate Resolver (`scraper.py`, `run_scrape` lines 227–242)

The scraper scans `page.content()` with
`re.search(r'([-+]?[0-9]{1,3}\.[0-9]{4,}),\s*([-+]?[0-9]{1,3}\.[0-9]{4,})', body)`
and, if a match is found, sets `lat = float(m.group(1))`, `lon = float(m.group(2))`;
then `if (not lat or not lon) and address: lat, lon = geocode_address(address)`.

For this fixed pattern Python's backtracking search is deterministic: the
greedy `[0-9]{1,3}` must take a maximal digit run (any shorter choice leaves a
digit where `\.` is required), and the greedy `[0-9]{4,}` and `\s*` runs are
followed by `,`/sign/digit, never by more of their own class, so they take
maximal runs too.  `matchNumAt`/`matchPairAt` below implement exactly that,
and `searchPair` is the leftmost-match loop of `re.search`. -/

/-- Python's regex `\s` on ASCII text. -/
def isSpaceC (c : Char) : Bool :=
  c = ' ' || c = '\t' || c = '\n' || c = '\r' || c = Char.ofNat 11 || c = Char.ofNat 12

/-- The pieces of one matched decimal number: optional minus sign, 1–3 integer
digits, ≥ 4 fractional digits. -/
structure NumParts where
  neg : Bool
  intDs : List Char
  fracDs : List Char
deriving DecidableEq

/-- Consume the optional `[-+]?` sign. -/
def splitSign (cs : List Char) : Bool × List Char :=
  match cs with
  | [] => (false, [])
  | c :: r => if c = '-' then (true, r) else if c = '+' then (false, r) else (false, cs)

/-- Match `[-+]?[0-9]{1,3}\.[0-9]{4,}` at the start of the input (greedy,
deterministic as argued above); returns the pieces and the remaining input. -/
def matchNumAt (cs : List Char) : Option (NumParts × List Char) :=
  let s := splitSign cs
  let ds := s.2.takeWhile isDig
  if ds.length = 0 ∨ 3 < ds.length then none
  else
    match s.2.dropWhile isDig with
    | c :: cs3 =>
      if c = '.' then
        let fs := cs3.takeWhile isDig
        if fs.length < 4 then none
        else some (⟨s.1, ds, fs⟩, cs3.dropWhile isDig)
      else none
    | [] => none

/-- Match the full pair pattern `NUM,\s*NUM` at the start of the input. -/
def matchPairAt (cs : List Char) : Option (NumParts × NumParts) :=
  match matchNumAt cs with
  | none => none
  | some (n1, r1) =>
    match r1 with
    | c :: r2 =>
      if c = ',' then
        match matchNumAt (r2.dropWhile isSpaceC) with
        | some (n2, _) => some (n1, n2)
        | none => none
      else none
    | [] => none

/-- `re.search`: try the pattern at each position, leftmost match wins. -/
def searchPair : List Char → Option (NumParts × NumParts)
  | [] => none
  | c :: cs =>
    match matchPairAt (c :: cs) with
    | some p => some p
    | none => searchPair cs

/-- `float(m.group(i))`: the exact decimal value of the matched number. -/
def numVal (n : NumParts) : ℚ :=
  (if n.neg then -1 else 1) *
    ((digitsVal n.intDs : ℚ) + (digitsVal n.fracDs : ℚ) / 10 ^ n.fracDs.length)

/-- Direct lat/lon extraction from the raw page text (lines 229–238). -/
def findLatLon (body : List Char) : Option (ℚ × ℚ) :=
  (searchPair body).map fun p => (numVal p.1, numVal p.2)

/-- Python truthiness of the optional float `lat`/`lon`: `None` and `0.0` are
falsy. -/
def pyTruthyQ : Option ℚ → Bool
  | none => false
  | some v => !(v == 0)

/-- Python truthiness of the optional string `address`: `None` and `''` are
falsy. -/
def pyTruthyS : Option String → Bool
  | none => false
  | some s => !(s == "")

/-- Lines 227–242: extraction, then
`if (not lat or not lon) and address: lat, lon = geocode_address(address)`.
`geoR` is the geocoder's would-be result; the boolean records whether the
geocoding service was invoked. -/
def resolveCoords (body : List Char) (address : Option String)
    (geoR : Option ℚ × Option ℚ) : (Option ℚ × Option ℚ) × Bool :=
  let extracted := findLatLon body
  let lat : Option ℚ := extracted.map Prod.fst
  let lon : Option ℚ := extracted.map Prod.snd
  if (!pyTruthyQ lat || !pyTruthyQ lon) && pyTruthyS address then (geoR, true)
  else ((lat, lon), false)

/-- `if lat and lon:` (scraper line 248) and `if not (lat and lon): continue`
(thumbnails.py line 24): a thumbnail is fetched only when both coordinates
are truthy. -/
def thumbEligible (lat lon : Option ℚ) : Bool := pyTruthyQ lat && pyTruthyQ lon

/-! ### The declarative pattern language and completeness of the matcher -/

/-- `[-+]?` -/
def IsSign (sgn : List Char) : Prop := sgn = [] ∨ sgn = ['-'] ∨ sgn = ['+']

/-- A word of the language `[-+]?[0-9]{1,3}\.[0-9]{4,}`. -/
def IsNumStr (w : List Char) : Prop :=
  ∃ sgn ds fs, w = sgn ++ ds ++ '.' :: fs ∧ IsSign sgn ∧
    1 ≤ ds.length ∧ ds.length ≤ 3 ∧ (∀ c ∈ ds, isDig c = true) ∧
    4 ≤ fs.length ∧ (∀ c ∈ fs, isDig c = true)

/-- A word of the full pair pattern. -/
def IsPairStr (w : List Char) : Prop :=
  ∃ w1 sp w2, w = w1 ++ ',' :: (sp ++ w2) ∧ IsNumStr w1 ∧
    (∀ c ∈ sp, isSpaceC c = true) ∧ IsNumStr w2

/-- "The page text contains a pair of two decimal numbers with at least 4
fractional digits separated by a comma." -/
def ContainsPair (s : List Char) : Prop :=
  ∃ pre mid post, s = pre ++ mid ++ post ∧ IsPairStr mid

theorem isDig_not_special {c : Char} (h : isDig c = true) :
    c ≠ '+' ∧ c ≠ '.' ∧ isSpaceC c = false := by
  refine ⟨ne_of_isDig h _ (by decide), ne_of_isDig h _ (by decide), ?_⟩
  simp [isSpaceC, ne_of_isDig h ' ' (by decide), ne_of_isDig h '\t' (by decide),
    ne_of_isDig h '\n' (by decide), ne_of_isDig h '\r' (by decide),
    ne_of_isDig h (Char.ofNat 11) (by decide), ne_of_isDig h (Char.ofNat 12) (by decide)]

theorem splitSign_cons (c : Char) (t : List Char) :
    splitSign (c :: t) =
      if c = '-' then (true, t) else if c = '+' then (false, t) else (false, c :: t) := rfl

/-- `matchNumAt` consumes exactly a number word when what follows cannot
extend its fractional run. -/
theorem matchNumAt_exact (neg : Bool) (sgn ds fs X : List Char)
    (hsgn : (neg = false ∧ sgn = []) ∨ (neg = true ∧ sgn = ['-']) ∨
      (neg = false ∧ sgn = ['+']))
    (hds1 : 1 ≤ ds.length) (hds3 : ds.length ≤ 3)
    (hdsd : ∀ c ∈ ds, isDig c = true)
    (hfs4 : 4 ≤ fs.length) (hfsd : ∀ c ∈ fs, isDig c = true)
    (hX : ∀ c t, X = c :: t → isDig c = false) :
    matchNumAt (sgn ++ ds ++ '.' :: (fs ++ X)) = some (⟨neg, ds, fs⟩, X) := by
  have htail : splitSign (sgn ++ ds ++ '.' :: (fs ++ X)) =
      (neg, ds ++ '.' :: (fs ++ X)) := by
    rcases hsgn with ⟨hb, hs⟩ | ⟨hb, hs⟩ | ⟨hb, hs⟩ <;> subst hb <;> subst hs
    · obtain ⟨d, ds', hd⟩ : ∃ d ds', ds = d :: ds' := by
        cases ds with
        | nil => simp at hds1
        | cons d ds' => exact ⟨d, ds', rfl⟩
      have hdig : isDig d = true := hdsd d (hd ▸ List.mem_cons_self d ds')
      rw [List.nil_append, hd, List.cons_append, splitSign_cons,
        if_neg (isDig_ne hdig).2.2.2.2.2.2.1, if_neg (isDig_not_special hdig).1]
    · rfl
    · rfl
  have hds : (ds ++ '.' :: (fs ++ X)).takeWhile isDig = ds := by
    rw [takeWhile_all_append _ _ hdsd, List.takeWhile_cons,
      if_neg (by decide : ¬isDig '.' = true), List.append_nil]
  have hds' : (ds ++ '.' :: (fs ++ X)).dropWhile isDig = '.' :: (fs ++ X) := by
    rw [dropWhile_all_append _ _ hdsd, List.dropWhile_cons,
      if_neg (by decide : ¬isDig '.' = true)]
  have hfs : (fs ++ X).takeWhile isDig = fs := by
    rw [takeWhile_all_append _ _ hfsd, (takeWhile_head_false X hX).1, List.append_nil]
  have hfs' : (fs ++ X).dropWhile isDig = X := by
    rw [dropWhile_all_append _ _ hfsd, (takeWhile_head_false X hX).2]
  unfold matchNumAt
  simp only [htail, hds, hds', hfs, hfs']
  have hne : ds ≠ [] := by intro he; subst he; simp at hds1
  have h3 : ¬3 < ds.length := by omega
  have h2 : ¬(fs.length < 4) := by omega
  simp [h2, hne, h3]

/-- `matchNumAt` succeeds on a number word whatever follows. -/
theorem matchNumAt_isSome (sgn ds fs X : List Char) (hsgn : IsSign sgn)
    (hds1 : 1 ≤ ds.length) (hds3 : ds.length ≤ 3)
    (hdsd : ∀ c ∈ ds, isDig c = true)
    (hfs4 : 4 ≤ fs.length) (hfsd : ∀ c ∈ fs, isDig c = true) :
    (matchNumAt (sgn ++ ds ++ '.' :: (fs ++ X))).isSome = true := by
  have hneg : (sgn = [] ∧ (false : Bool) = false) ∨ (sgn = ['-'] ∧ (true : Bool) = true) ∨
      (sgn = ['+'] ∧ (false : Bool) = false) := by
    rcases hsgn with h | h | h
    · exact Or.inl ⟨h, rfl⟩
    · exact Or.inr (Or.inl ⟨h, rfl⟩)
    · exact Or.inr (Or.inr ⟨h, rfl⟩)
  have htail : ∃ b, splitSign (sgn ++ ds ++ '.' :: (fs ++ X)) =
      (b, ds ++ '.' :: (fs ++ X)) := by
    rcases hneg with ⟨hs, -⟩ | ⟨hs, -⟩ | ⟨hs, -⟩ <;> subst hs
    · obtain ⟨d, ds', hd⟩ : ∃ d ds', ds = d :: ds' := by
        cases ds with
        | nil => simp at hds1
        | cons d ds' => exact ⟨d, ds', rfl⟩
      have hdig : isDig d = true := hdsd d (hd ▸ List.mem_cons_self d ds')
      refine ⟨false, ?_⟩
      rw [List.nil_append, hd, List.cons_append, splitSign_cons,
        if_neg (isDig_ne hdig).2.2.2.2.2.2.1, if_neg (isDig_not_special hdig).1]
    · exact ⟨true, rfl⟩
    · exact ⟨false, rfl⟩
  obtain ⟨b, htail⟩ := htail
  have hds : (ds ++ '.' :: (fs ++ X)).takeWhile isDig = ds := by
    rw [takeWhile_all_append _ _ hdsd, List.takeWhile_cons,
      if_neg (by decide : ¬isDig '.' = true), List.append_nil]
  have hds' : (ds ++ '.' :: (fs ++ X)).dropWhile isDig = '.' :: (fs ++ X) := by
    rw [dropWhile_all_append _ _ hdsd, List.dropWhile_cons,
      if_neg (by decide : ¬isDig '.' = true)]
  have hfs : 4 ≤ ((fs ++ X).takeWhile isDig).length := by
    rw [takeWhile_all_append _ _ hfsd, List.length_append]
    omega
  unfold matchNumAt
  simp only [htail, hds, hds']
  have hne : ds ≠ [] := by intro he; subst he; simp at hds1
  have h3 : ¬3 < ds.length := by omega
  have h2 : ¬(((fs ++ X).takeWhile isDig).length < 4) := by omega
  simp [h2, hne, h3]

/-- `matchPairAt` succeeds at the start of a pair word whatever follows. -/
theorem matchPairAt_isSome (w1 sp w2 post : List Char)
    (h1 : IsNumStr w1) (hsp : ∀ c ∈ sp, isSpaceC c = true) (h2 : IsNumStr w2) :
    (matchPairAt ((w1 ++ ',' :: (sp ++ w2)) ++ post)).isSome = true := by
  obtain ⟨sgn, ds, fs, hw1, hsgn, hds1, hds3, hdsd, hfs4, hfsd⟩ := h1
  have hneg : ∃ neg, (neg = false ∧ sgn = []) ∨ (neg = true ∧ sgn = ['-']) ∨
      (neg = false ∧ sgn = ['+']) := by
    rcases hsgn with h | h | h
    · exact ⟨false, Or.inl ⟨rfl, h⟩⟩
    · exact ⟨true, Or.inr (Or.inl ⟨rfl, h⟩)⟩
    · exact ⟨false, Or.inr (Or.inr ⟨rfl, h⟩)⟩
  obtain ⟨neg, hneg⟩ := hneg
  have hshape : (w1 ++ ',' :: (sp ++ w2)) ++ post =
      sgn ++ ds ++ '.' :: (fs ++ (',' :: (sp ++ (w2 ++ post)))) := by
    rw [hw1]
    simp [List.append_assoc]
  rw [hshape]
  unfold matchPairAt
  rw [matchNumAt_exact neg sgn ds fs _ hneg hds1 hds3 hdsd hfs4 hfsd
    (by intro c t hct; injection hct with h1 _; subst h1; decide)]
  dsimp only
  rw [if_pos rfl]
  have hdrop : (sp ++ (w2 ++ post)).dropWhile isSpaceC = w2 ++ post := by
    rw [dropWhile_all_append _ _ hsp]
    obtain ⟨sgn2, ds2, fs2, hw2, hsgn2, hds1', hds3', hdsd', hfs4', hfsd'⟩ := h2
    have hhead : ∃ c t, w2 ++ post = c :: t ∧ isSpaceC c = false := by
      rcases hsgn2 with h | h | h
      · obtain ⟨d, ds', hd⟩ : ∃ d ds', ds2 = d :: ds' := by
          cases ds2 with
          | nil => simp at hds1'
          | cons d ds' => exact ⟨d, ds', rfl⟩
        have hdig : isDig d = true := hdsd' d (hd ▸ List.mem_cons_self d ds')
        exact ⟨d, ds' ++ '.' :: (fs2 ++ post), by rw [hw2, h, hd]; simp,
          (isDig_not_special hdig).2.2⟩
      · exact ⟨'-', ds2 ++ '.' :: (fs2 ++ post), by rw [hw2, h]; simp, by decide⟩
      · exact ⟨'+', ds2 ++ '.' :: (fs2 ++ post), by rw [hw2, h]; simp, by decide⟩
    obtain ⟨c, t, hct, hcs⟩ := hhead
    rw [hct, List.dropWhile_cons, if_neg (by simp [hcs])]
  rw [hdrop]
  obtain ⟨sgn2, ds2, fs2, hw2, hsgn2, hds1', hds3', hdsd', hfs4', hfsd'⟩ := h2
  have hshape2 : w2 ++ post = sgn2 ++ ds2 ++ '.' :: (fs2 ++ post) := by
    rw [hw2]
    simp [List.append_assoc]
  rw [hshape2]
  have hs2 := matchNumAt_isSome sgn2 ds2 fs2 post hsgn2 hds1' hds3' hdsd' hfs4' hfsd'
  obtain ⟨p, hp⟩ := Option.isSome_iff_exists.mp hs2
  rw [hp]
  obtain ⟨n2, r2⟩ := p
  rfl

/-- Leftmost search succeeds whenever the text contains a pair word. -/
theorem searchPair_isSome :
    ∀ pre mid post : List Char, IsPairStr mid →
      (searchPair (pre ++ mid ++ post)).isSome = true := by
  intro pre
  induction pre with
  | nil =>
    intro mid post h
    obtain ⟨w1, sp, w2, hmid, h1, hsp, h2⟩ := h
    have hs : (matchPairAt ((w1 ++ ',' :: (sp ++ w2)) ++ post)).isSome = true :=
      matchPairAt_isSome w1 sp w2 post h1 hsp h2
    rw [List.nil_append, hmid]
    obtain ⟨c, t, hct⟩ : ∃ c t, (w1 ++ ',' :: (sp ++ w2)) ++ post = c :: t := by
      cases hcs : (w1 ++ ',' :: (sp ++ w2)) ++ post with
      | nil => simp at hcs
      | cons c t => exact ⟨c, t, rfl⟩
    rw [hct] at hs ⊢
    obtain ⟨p, hp⟩ := Option.isSome_iff_exists.mp hs
    simp [searchPair, hp]
  | cons c pre ih =>
    intro mid post h
    show (searchPair (c :: (pre ++ mid ++ post))).isSome = true
    simp only [searchPair]
    rcases hm : matchPairAt (c :: (pre ++ mid ++ post)) with _ | p
    · exact ih mid post h
    · rfl

/-- `matchPairAt` consumes exactly a full pair word standing alone. -/
theorem matchPairAt_exact (neg1 : Bool) (sgn1 ds1 fs1 sp : List Char)
    (neg2 : Bool) (sgn2 ds2 fs2 : List Char)
    (hsgn1 : (neg1 = false ∧ sgn1 = []) ∨ (neg1 = true ∧ sgn1 = ['-']) ∨
      (neg1 = false ∧ sgn1 = ['+']))
    (hds11 : 1 ≤ ds1.length) (hds13 : ds1.length ≤ 3)
    (hdsd1 : ∀ c ∈ ds1, isDig c = true)
    (hfs14 : 4 ≤ fs1.length) (hfsd1 : ∀ c ∈ fs1, isDig c = true)
    (hsp : ∀ c ∈ sp, isSpaceC c = true)
    (hsgn2 : (neg2 = false ∧ sgn2 = []) ∨ (neg2 = true ∧ sgn2 = ['-']) ∨
      (neg2 = false ∧ sgn2 = ['+']))
    (hds21 : 1 ≤ ds2.length) (hds23 : ds2.length ≤ 3)
    (hdsd2 : ∀ c ∈ ds2, isDig c = true)
    (hfs24 : 4 ≤ fs2.length) (hfsd2 : ∀ c ∈ fs2, isDig c = true) :
    matchPairAt (sgn1 ++ ds1 ++ '.' :: (fs1 ++
        (',' :: (sp ++ (sgn2 ++ ds2 ++ '.' :: (fs2 ++ [])))))) =
      some (⟨neg1, ds1, fs1⟩, ⟨neg2, ds2, fs2⟩) := by
  unfold matchPairAt
  rw [matchNumAt_exact neg1 sgn1 ds1 fs1 _ hsgn1 hds11 hds13 hdsd1 hfs14 hfsd1
    (by intro c t hct; injection hct with h1 _; subst h1; decide)]
  dsimp only
  rw [if_pos rfl]
  have hdrop : (sp ++ (sgn2 ++ ds2 ++ '.' :: (fs2 ++ []))).dropWhile isSpaceC =
      sgn2 ++ ds2 ++ '.' :: (fs2 ++ []) := by
    rw [dropWhile_all_append _ _ hsp]
    rcases hsgn2 with ⟨-, hs⟩ | ⟨-, hs⟩ | ⟨-, hs⟩ <;> subst hs
    · obtain ⟨d, ds', hd⟩ : ∃ d ds', ds2 = d :: ds' := by
        cases ds2 with
        | nil => simp at hds21
        | cons d ds' => exact ⟨d, ds', rfl⟩
      have hdig : isDig d = true := hdsd2 d (hd ▸ List.mem_cons_self d ds')
      rw [List.nil_append, hd, List.cons_append, List.dropWhile_cons,
        if_neg (by simp [(isDig_not_special hdig).2.2])]
    · rw [List.cons_append, List.nil_append, List.cons_append, List.dropWhile_cons,
        if_neg (by decide)]
    · rw [List.cons_append, List.nil_append, List.cons_append, List.dropWhile_cons,
        if_neg (by decide)]
  rw [hdrop]
  rw [matchNumAt_exact neg2 sgn2 ds2 fs2 [] hsgn2 hds21 hds23 hdsd2 hfs24 hfsd2
    (by intro c t hct; exact absurd hct (by simp))]

/-- Concrete evaluation of the extractor on the page text `0.0000,25.1234`:
the leftmost pair is found, with `float('0.0000') = 0.0` and
`float('25.1234') = 25.1234`. -/
theorem findLatLon_zero_example :
    findLatLon ['0', '.', '0', '0', '0', '0', ',', '2', '5', '.', '1', '2', '3', '4'] =
      some (0, 25 + 1234 / 10000) := by
  have hshape : (['0', '.', '0', '0', '0', '0', ',', '2', '5', '.', '1', '2', '3', '4'] :
      List Char) =
      [] ++ ['0'] ++ '.' :: (['0', '0', '0', '0'] ++
        (',' :: ([] ++ ([] ++ ['2', '5'] ++ '.' :: (['1', '2', '3', '4'] ++ []))))) := rfl
  have hm : matchPairAt
      (['0', '.', '0', '0', '0', '0', ',', '2', '5', '.', '1', '2', '3', '4'] : List Char) =
      some (⟨false, ['0'], ['0', '0', '0', '0']⟩,
        ⟨false, ['2', '5'], ['1', '2', '3', '4']⟩) := by
    rw [hshape]
    exact matchPairAt_exact false [] ['0'] ['0', '0', '0', '0'] [] false []
      ['2', '5'] ['1', '2', '3', '4'] (Or.inl ⟨rfl, rfl⟩) (by decide) (by decide)
      (by decide) (by decide) (by decide) (by simp) (Or.inl ⟨rfl, rfl⟩) (by decide)
      (by decide) (by decide) (by decide) (by decide)
  have hsearch : searchPair
      (['0', '.', '0', '0', '0', '0', ',', '2', '5', '.', '1', '2', '3', '4'] : List Char) =
      some (⟨false, ['0'], ['0', '0', '0', '0']⟩,
        ⟨false, ['2', '5'], ['1', '2', '3', '4']⟩) := by
    simp only [searchPair]
    rw [hm]
  have hd0 : digitsVal ['0'] = 0 := by decide
  have hd00 : digitsVal ['0', '0', '0', '0'] = 0 := by decide
  have h25 : digitsVal ['2', '5'] = 25 := by decide
  have h1234 : digitsVal ['1', '2', '3', '4'] = 1234 := by decide
  have hv1 : numVal ⟨false, ['0'], ['0', '0', '0', '0']⟩ = 0 := by
    simp [numVal, hd0, hd00]
  have hv2 : numVal ⟨false, ['2', '5'], ['1', '2', '3', '4']⟩ = 25 + 1234 / 10000 := by
    norm_num [numVal, h25, h1234]
  simp only [findLatLon, hsearch, Option.map_some']
  rw [hv1, hv2]

/-- **C3, counterexample.** A page text containing the pair `0.0000,25.1234`
(two decimals with ≥ 4 fractional digits, comma-separated) does *not* make
the resolver return that pair without geocoding: `float('0.0000')` is `0.0`,
which is falsy in `if (not lat or not lon) and address:`, so the geocoding
service *is* invoked and its result replaces the extracted pair. -/
theorem direct_extraction_zero_cex :
    ContainsPair ['0', '.', '0', '0', '0', '0', ',', '2', '5', '.', '1', '2', '3', '4'] ∧
    resolveCoords ['0', '.', '0', '0', '0', '0', ',', '2', '5', '.', '1', '2', '3', '4']
      (some "1 Main St") (some 39, some (-104)) = ((some 39, some (-104)), true) := by
  constructor
  · refine ⟨[], ['0', '.', '0', '0', '0', '0', ',', '2', '5', '.', '1', '2', '3', '4'],
      [], by simp, ['0', '.', '0', '0', '0', '0'], [], ['2', '5', '.', '1', '2', '3', '4'],
      rfl, ?_, by simp, ?_⟩
    · exact ⟨[], ['0'], ['0', '0', '0', '0'], rfl, Or.inl rfl, by decide, by decide,
        by decide, by decide, by decide⟩
    · exact ⟨[], ['2', '5'], ['1', '2', '3', '4'], rfl, Or.inl rfl, by decide, by decide,
        by decide, by decide, by decide⟩
  · have hfind := findLatLon_zero_example
    have haddr : (("1 Main St" : String) == "") = false := by decide
    simp [resolveCoords, hfind, pyTruthyQ, pyTruthyS, haddr]

/-- **C3 (amended).** If the page text contains a pair of decimals with at
least 4 fractional digits separated by a comma, direct extraction yields the
leftmost such pair, and — provided neither parsed value equals `0.0` — the
resolver returns exactly that pair with the geocoding service not invoked. -/
theorem direct_extraction_no_geocode (body : List Char) (address : Option String)
    (geoR : Option ℚ × Option ℚ) (hcontains : ContainsPair body) :
    ∃ la lo, findLatLon body = some (la, lo) ∧
      (la ≠ 0 → lo ≠ 0 →
        resolveCoords body address geoR = ((some la, some lo), false)) := by
  obtain ⟨pre, mid, post, hbody, hpair⟩ := hcontains
  have hs : (searchPair body).isSome = true := by
    rw [hbody]
    exact searchPair_isSome pre mid post hpair
  obtain ⟨p, hp⟩ := Option.isSome_iff_exists.mp hs
  refine ⟨numVal p.1, numVal p.2, ?_, ?_⟩
  · simp [findLatLon, hp]
  · intro hla hlo
    have h1 : (numVal p.1 == 0) = false := beq_eq_false_iff_ne.mpr hla
    have h2 : (numVal p.2 == 0) = false := beq_eq_false_iff_ne.mpr hlo
    simp [resolveCoords, findLatLon, hp, pyTruthyQ, h1, h2]

/-- Witness for the amended C3 on a concrete page text containing
`39.7392,-104.9903`. -/
theorem direct_extraction_no_geocode_witness :
    ContainsPair ("39.7392,-104.9903".data) ∧
    ∃ la lo, findLatLon ("39.7392,-104.9903".data) = some (la, lo) ∧
      (la ≠ 0 → lo ≠ 0 →
        resolveCoords ("39.7392,-104.9903".data) (some "1 Main St")
          (some 1, some 2) = ((some la, some lo), false)) := by
  have hc : ContainsPair ("39.7392,-104.9903".data) :=
    ⟨[], "39.7392,-104.9903".data, [], by simp,
      "39.7392".data, [], "-104.9903".data, by decide,
      ⟨[], ['3', '9'], ['7', '3', '9', '2'], by decide, Or.inl rfl, by decide,
        by decide, by decide, by decide, by decide⟩,
      by simp,
      ⟨['-'], ['1', '0', '4'], ['9', '9', '0', '3'], by decide, Or.inr (Or.inl rfl),
        by decide, by decide, by decide, by decide, by decide⟩⟩
  exact ⟨hc, direct_extraction_no_geocode _ (some "1 Main St") (some 1, some 2) hc⟩

/-- **C10.** An extracted coordinate equal to `0.0` is treated as absent:
with a truthy address the geocoder fallback runs and its result replaces the
extracted pair; and no thumbnail is fetched when the final `lat` or `lon` is
`0.0` or `None` (Python truthiness in `if lat and lon:` and in
`if not (lat and lon): continue`). -/
theorem zero_coords_treated_absent (body : List Char) (addr : Option String)
    (geoR : Option ℚ × Option ℚ) :
    (∀ la lo : ℚ, findLatLon body = some (la, lo) → (la = 0 ∨ lo = 0) →
       pyTruthyS addr = true → resolveCoords body addr geoR = (geoR, true)) ∧
    (∀ lat lon : Option ℚ,
       (lat = none ∨ lat = some 0 ∨ lon = none ∨ lon = some 0) →
       thumbEligible lat lon = false) := by
  constructor
  · intro la lo hfind hzero haddr
    have hcond : (!pyTruthyQ (some la) || !pyTruthyQ (some lo)) = true := by
      rcases hzero with h | h <;> subst h <;> simp [pyTruthyQ]
    simp [resolveCoords, hfind, hcond, haddr]
  · intro lat lon h
    rcases h with h | h | h | h <;> subst h <;> simp [thumbEligible, pyTruthyQ]

/-- Witness for C10: the page text `0.0000,25.1234`, a present address, and a
zero coordinate at the thumbnail gate. -/
theorem zero_coords_treated_absent_witness :
    (findLatLon ['0', '.', '0', '0', '0', '0', ',', '2', '5', '.', '1', '2', '3', '4'] =
       some (0, 25 + 1234 / 10000) ∧
     ((0 : ℚ) = 0 ∨ (25 + 1234 / 10000 : ℚ) = 0) ∧
     pyTruthyS (some "1 Main St") = true ∧
     resolveCoords ['0', '.', '0', '0', '0', '0', ',', '2', '5', '.', '1', '2', '3', '4']
       (some "1 Main St") (some 1, some 2) = ((some 1, some 2), true)) ∧
    ((some (0 : ℚ) = none ∨ some (0 : ℚ) = some 0 ∨ (some 3 : Option ℚ) = none ∨
       (some 3 : Option ℚ) = some 0) ∧
     thumbEligible (some 0) (some 3) = false) := by
  have haddr : pyTruthyS (some "1 Main St") = true := by decide
  refine ⟨⟨findLatLon_zero_example, Or.inl rfl, haddr, ?_⟩,
    ⟨Or.inr (Or.inl rfl), ?_⟩⟩
  · exact (zero_coords_treated_absent
      ['0', '.', '0', '0', '0', '0', ',', '2', '5', '.', '1', '2', '3', '4']
      (some "1 Main St") (some 1, some 2)).1 0 (25 + 1234 / 10000)
      findLatLon_zero_example (Or.inl rfl) haddr
  · exact (zero_coords_treated_absent [] none (none, none)).2 (some 0) (some 3)
      (Or.inr (Or.inl rfl))

/-! ## Retry policy and geocoding (`utils.py`, `geo_imagery.py`)

`retry_backoff(max_attempts=4, ...)` wraps `geocode_address`: the wrapped call
is retried on *exceptions only*; after the attempt cap is reached the last
exception is re-raised (`if attempt >= max_attempts: ... raise`).  A non-200
response or an empty candidate list is a *normal return* of `(None, None)`
and is never retried.  Attempt outcomes are modelled as a function from the
attempt index; delays are irrelevant to the returned value and are omitted. -/

/-- The retry loop of `retry_backoff`: `remaining` tries left, `k` the current
attempt index. -/
def retryAux {A : Type} (runs : Nat → Except Unit A) : Nat → Nat → Except Unit A
  | 0, _ => .error ()
  | r + 1, k =>
    match runs k with
    | .ok a => .ok a
    | .error e => if r = 0 then .error e else retryAux runs r (k + 1)

/-- `retry_backoff(max_attempts)(fn)`: runs `fn` up to `max(1, max_attempts)`
times, re-raising after the cap. -/
def retry_backoff {A : Type} (max_attempts : Nat) (runs : Nat → Except Unit A) :
    Except Unit A :=
  retryAux runs (max 1 max_attempts) 0

/-- One geocoder HTTP response: status code and a decoded JSON candidate list
(each candidate's lat/lon). -/
structure GeoResponse where
  status : Nat
  results : List (ℚ × ℚ)

/-- The body of `geocode_address`: 200 with candidates → first candidate's
coordinates; 200 with no candidates or any non-200 status → `(None, None)`. -/
def geocodeOnce (resp : GeoResponse) : Option ℚ × Option ℚ :=
  if resp.status = 200 then
    match resp.results with
    | c :: _ => (some c.1, some c.2)
    | [] => (none, none)
  else (none, none)

/-- `geocode_address` = `retry_backoff(max_attempts=4, ...)` around one
network attempt; an attempt that raises is `Except.error`. -/
def geocode_address (runs : Nat → Except Unit GeoResponse) :
    Except Unit (Option ℚ × Option ℚ) :=
  retry_backoff 4 (fun k => (runs k).map geocodeOnce)

/-- The data needed to upsert one scraped permit. -/
structure ItemData where
  permit_number : String
  address : Option String
  lat : Option ℚ
  lon : Option ℚ
  details : Json
  scraped_at : String
  thumbnail_path : Option String

/-- The per-item loop of `run_scrape` (lines 210–268): each item is wrapped
in `try/except`; an exception anywhere while processing an item (including a
re-raised geocoding failure) skips that item — no row is stored and the count
is not bumped — and the loop continues with the next item. -/
def scrapeLoop (items : List (Except Unit ItemData)) (db : List PermitRow) :
    List PermitRow × Nat :=
  match items with
  | [] => (db, 0)
  | .error _ :: rest => scrapeLoop rest db
  | .ok d :: rest =>
    let db2 := upsert_permit db d.permit_number d.address d.lat d.lon d.details
      d.scraped_at d.thumbnail_path
    let r := scrapeLoop rest db2
    (r.1, r.2 + 1)

/-- **C4, counterexample.** When every attempt raises (persistent network
error), `geocode_address` does *not* return `(None, None)`: after its 4
attempts `retry_backoff` re-raises, so the call raises. -/
theorem geocode_persistent_error_raises_cex :
    geocode_address (fun _ => .error ()) = .error () ∧
    (Except.error () : Except Unit (Option ℚ × Option ℚ)) ≠ .ok (none, none) := by
  constructor
  · rfl
  · intro h
    exact Except.noConfusion h

/-- **C4 (amended).** A completed geocoding response that is non-200 or has
no candidates yields `(None, None)` without raising; a network error on all
4 attempts makes `geocode_address` raise, and the orchestrator's per-item
handler then skips that item (nothing stored, count unchanged) while the
loop — and hence the overall run — continues unaffected. -/
theorem geocode_failure_handling (runs : Nat → Except Unit GeoResponse)
    (resp : GeoResponse) :
    (runs 0 = .ok resp → resp.status ≠ 200 →
      geocode_address runs = .ok (none, none)) ∧
    (runs 0 = .ok resp → resp.results = [] →
      geocode_address runs = .ok (none, none)) ∧
    ((∀ k, k < 4 → runs k = .error ()) → geocode_address runs = .error ()) ∧
    (∀ (items : List (Except Unit ItemData)) (db : List PermitRow),
      scrapeLoop (.error () :: items) db = scrapeLoop items db) := by
  refine ⟨?_, ?_, ?_, ?_⟩
  · intro h0 hst
    simp [geocode_address, retry_backoff, retryAux, Except.map, h0, geocodeOnce, hst]
  · intro h0 hres
    have : geocodeOnce resp = (none, none) := by
      unfold geocodeOnce
      by_cases hst : resp.status = 200
      · simp [hst, hres]
      · simp [hst]
    simp [geocode_address, retry_backoff, retryAux, Except.map, h0, this]
  · intro h
    have h0 := h 0 (by omega)
    have h1 := h 1 (by omega)
    have h2 := h 2 (by omega)
    have h3 := h 3 (by omega)
    simp [geocode_address, retry_backoff, retryAux, Except.map, h0, h1, h2, h3]
  · intro items db
    rfl

/-- Witness for the amended C4: a 404 response, a persistently failing
geocoder, and a failed item at the head of the loop. -/
theorem geocode_failure_handling_witness :
    ((fun _ : Nat => (.ok ⟨404, []⟩ : Except Unit GeoResponse)) 0 = .ok ⟨404, []⟩ ∧
     (404 : Nat) ≠ 200 ∧
     geocode_address (fun _ => .ok ⟨404, []⟩) = .ok (none, none)) ∧
    ((∀ k, k < 4 → (fun _ : Nat => (.error () : Except Unit GeoResponse)) k = .error ()) ∧
     geocode_address (fun _ => .error ()) = .error ()) ∧
    scrapeLoop [.error ()] [] = scrapeLoop [] [] := by
  refine ⟨⟨rfl, by decide, ?_⟩, ⟨fun k _ => rfl, ?_⟩, ?_⟩
  · exact (geocode_failure_handling (fun _ => .ok ⟨404, []⟩) ⟨404, []⟩).1 rfl (by decide)
  · exact (geocode_failure_handling (fun _ => .error ()) ⟨0, []⟩).2.2.1 fun k _ => rfl
  · exact (geocode_failure_handling (fun _ => .error ()) ⟨0, []⟩).2.2.2 [] []

/-! ## The Imagery Fetcher (`geo_imagery.py`) -/

/-- `fetch_streetview_thumbnail`: with an API key configured, a 200 response
streams the image and returns the output path; a non-200 response or a raised
exception falls through to `fetch_satellite_thumbnail`; without a key it goes
straight to satellite.  `street` is the outcome of the Street View request
(its status code, or a raised exception); `sat` is the outcome of the
satellite fallback (its returned path, or a raised exception, which then
propagates). -/
def fetch_streetview_thumbnail (hasKey : Bool) (street : Except Unit Nat)
    (sat : Except Unit String) (outpath : String) : Except Unit String :=
  if hasKey then
    match street with
    | .ok status => if status = 200 then .ok outpath else sat
    | .error _ => sat
  else sat

/-- The caller's thumbnail block (`run_scrape` lines 247–262): try
`fetch_streetview_thumbnail`; on an exception try `fetch_satellite_thumbnail`
directly (`sat2`); if that also raises, `thumb_path = None` — the record is
still upserted. -/
def thumbnail_step (fsv : Except Unit String) (sat2 : Except Unit String) :
    Option String :=
  match fsv with
  | .ok p => some p
  | .error _ =>
    match sat2 with
    | .ok p => some p
    | .error _ => none

/-- After any upsert a row with the upserted key exists. -/
theorem upsert_exists_key (db : List PermitRow) (pn : String) (addr : Option String)
    (lat lon : Option ℚ) (details : Json) (s : String) (t : Option String) :
    ∃ r ∈ upsert_permit db pn addr lat lon details s t, r.permit_number = pn := by
  unfold upsert_permit
  by_cases hany : db.any (fun r => r.permit_number == pn)
  · rw [if_pos hany]
    rcases List.any_eq_true.mp hany with ⟨r0, hr0, hm0⟩
    refine ⟨_, List.mem_map.mpr ⟨r0, hr0, rfl⟩, ?_⟩
    rw [if_pos hm0]
  · rw [if_neg hany]
    exact ⟨_, List.mem_append.mpr (Or.inr (List.mem_singleton.mpr rfl)), rfl⟩

/-- **C6.** If the street-level fetch is unavailable or fails (no API key,
raised exception, or non-200 status), the satellite strategy is invoked and
its outcome — its output path on success — is returned; when both strategies
fail the error propagates to the caller, whose handler records no thumbnail
(`thumb_path = None`) yet still upserts the record. -/
theorem imagery_fallback (hasKey : Bool) (street : Except Unit Nat)
    (sat sat2 : Except Unit String) (out : String) :
    ((hasKey = false ∨ street = .error () ∨ (∃ st, street = .ok st ∧ st ≠ 200)) →
      fetch_streetview_thumbnail hasKey street sat out = sat) ∧
    ((hasKey = false ∨ street = .error () ∨ (∃ st, street = .ok st ∧ st ≠ 200)) →
      sat = .error () → sat2 = .error () →
      ∀ (db : List PermitRow) (pn : String) (addr : Option String)
        (lat lon : Option ℚ) (details : Json) (s : String),
        thumbnail_step (fetch_streetview_thumbnail hasKey street sat out) sat2 = none ∧
        ∃ r ∈ upsert_permit db pn addr lat lon details s
            (thumbnail_step (fetch_streetview_thumbnail hasKey street sat out) sat2),
          r.permit_number = pn ∧ r.thumbnail_path = none) := by
  have hfall : (hasKey = false ∨ street = .error () ∨ (∃ st, street = .ok st ∧ st ≠ 200)) →
      fetch_streetview_thumbnail hasKey street sat out = sat := by
    intro h
    rcases h with h | h | ⟨st, hst, hne⟩
    · simp [fetch_streetview_thumbnail, h]
    · simp [fetch_streetview_thumbnail, h]
    · simp [fetch_streetview_thumbnail, hst, hne]
  refine ⟨hfall, ?_⟩
  intro h hsat hsat2 db pn addr lat lon details s
  have hnone : thumbnail_step (fetch_streetview_thumbnail hasKey street sat out) sat2 =
      none := by
    rw [hfall h, hsat, hsat2]
    rfl
  refine ⟨hnone, ?_⟩
  obtain ⟨r, hr, hkey⟩ := upsert_exists_key db pn addr lat lon details s
    (thumbnail_step (fetch_streetview_thumbnail hasKey street sat out) sat2)
  refine ⟨r, hr, hkey, ?_⟩
  have := upsert_row_of_key db pn addr lat lon details s _ r hr hkey
  rw [this, hnone]

/-- Witness for C6: no API key, both strategies raising, an empty store. -/
theorem imagery_fallback_witness :
    ((false = false ∨ (Except.error () : Except Unit Nat) = .error () ∨
       (∃ st, (Except.error () : Except Unit Nat) = .ok st ∧ st ≠ 200)) ∧
     fetch_streetview_thumbnail false (.error ()) (.error ()) "t.jpg" = .error ()) ∧
    (thumbnail_step (fetch_streetview_thumbnail false (.error ()) (.error ()) "t.jpg")
        (.error ()) = none ∧
     ∃ r ∈ upsert_permit [] "P1" none none none Json.null "2025-11-13"
         (thumbnail_step (fetch_streetview_thumbnail false (.error ()) (.error ()) "t.jpg")
           (.error ())),
       r.permit_number = "P1" ∧ r.thumbnail_path = none) := by
  refine ⟨⟨Or.inl rfl, ?_⟩, ?_⟩
  · exact (imagery_fallback false (.error ()) (.error ()) (.error ()) "t.jpg").1
      (Or.inl rfl)
  · exact (imagery_fallback false (.error ()) (.error ()) (.error ()) "t.jpg").2
      (Or.inl rfl) rfl rfl [] "P1" none none none Json.null "2025-11-13"

/-- The crop box computed by `fetch_satellite_thumbnail` (lines 72–77):
`cx = canvas.width // 2`, `left = max(0, cx - w // 2)`, box
`(left, top, left + w, top + h)`. -/
structure CropBox where
  left : ℤ
  top : ℤ
  right : ℤ
  bottom : ℤ

/-- PIL's `Image.crop` produces an image of size
`(right - left, bottom - top)`, padding any region outside the source
canvas — it never fails on out-of-bounds boxes. -/
def pil_crop_size (b : CropBox) : ℤ × ℤ := (b.right - b.left, b.bottom - b.top)

/-- The box `fetch_satellite_thumbnail` crops from its
`tiles*tilesize`-square stitched canvas for a requested `(w, h)`. -/
def satellite_crop_box (tiles tilesize w h : ℕ) : CropBox :=
  let canvas : ℤ := tiles * tilesize
  let cx := canvas / 2
  let cy := canvas / 2
  { left := max 0 (cx - (w : ℤ) / 2), top := max 0 (cy - (h : ℤ) / 2),
    right := max 0 (cx - (w : ℤ) / 2) + w, bottom := max 0 (cy - (h : ℤ) / 2) + h }

/-- **C8.** For any tile count, tile size and requested output size, the crop
origin is clamped at zero whenever the centered window would extend past the
canvas, and the cropped output dimensions equal the requested `(w, h)`
exactly — independent of the tile responses, since failed tiles are replaced
by placeholder tiles of the same size and the canvas is always
`tiles*tilesize` square. -/
theorem satellite_crop_spec (tiles tilesize w h : ℕ) :
    pil_crop_size (satellite_crop_box tiles tilesize w h) = ((w : ℤ), (h : ℤ)) ∧
    0 ≤ (satellite_crop_box tiles tilesize w h).left ∧
    0 ≤ (satellite_crop_box tiles tilesize w h).top ∧
    ((tiles * tilesize : ℤ) / 2 - (w : ℤ) / 2 < 0 →
      (satellite_crop_box tiles tilesize w h).left = 0) ∧
    ((tiles * tilesize : ℤ) / 2 - (h : ℤ) / 2 < 0 →
      (satellite_crop_box tiles tilesize w h).top = 0) := by
  refine ⟨?_, ?_, ?_, ?_, ?_⟩
  · simp [pil_crop_size, satellite_crop_box]
  · exact le_max_left 0 _
  · exact le_max_left 0 _
  · intro hlt
    exact max_eq_left (le_of_lt hlt)
  · intro hlt
    exact max_eq_left (le_of_lt hlt)

/-- Witness for C8 at a canvas smaller than the requested output
(`tiles = 1`, `tilesize = 256`, requested 400×300), where the clamp fires. -/
theorem satellite_crop_spec_witness :
    ((1 * 256 : ℤ) / 2 - (400 : ℤ) / 2 < 0) ∧
    ((1 * 256 : ℤ) / 2 - (300 : ℤ) / 2 < 0) ∧
    (pil_crop_size (satellite_crop_box 1 256 400 300) = (400, 300) ∧
     0 ≤ (satellite_crop_box 1 256 400 300).left ∧
     0 ≤ (satellite_crop_box 1 256 400 300).top ∧
     ((1 * 256 : ℤ) / 2 - (400 : ℤ) / 2 < 0 →
       (satellite_crop_box 1 256 400 300).left = 0) ∧
     ((1 * 256 : ℤ) / 2 - (300 : ℤ) / 2 < 0 →
       (satellite_crop_box 1 256 400 300).top = 0)) := by
  exact ⟨by decide, by decide, satellite_crop_spec 1 256 400 300⟩

/-! ## Pagination of the results listing (`run_scrape` lines 165–205)

`for page_idx in range(25):` collect the links of the current page, then try
the "next page" selector candidates in order: a selector with no element is
skipped; a found control whose
`disabled = btn.get_attribute('aria-disabled') or btn.get_attribute('class')`
is truthy and contains `'disabled'` (case-insensitively) or equals `'true'`
is skipped (never clicked); the first remaining candidate is clicked and the
loop moves to the next page.  If no candidate is clicked, the loop breaks. -/

/-- The "next page" control a selector finds: its `aria-disabled` and
`class` attribute values (`None` when absent). -/
structure NextButton where
  ariaDisabled : Option String
  cls : Option String
deriving DecidableEq

/-- Python's `a or b` on optional attribute strings: `None` and `''` are
falsy. -/
def pyOrStr (a b : Option String) : Option String :=
  match a with
  | some s => if s = "" then b else some s
  | none => b

/-- `str.lower()` (ASCII model). -/
def pyLower (s : String) : String := String.mk (s.data.map Char.toLower)

/-- Contiguous-sublist test on character lists. -/
def infixOf (needle : List Char) : List Char → Bool
  | [] => needle.isEmpty
  | c :: rest => needle.isPrefixOf (c :: rest) || infixOf needle rest

/-- Python's `needle in hay` substring test. -/
def pyInStr (needle hay : String) : Bool := infixOf needle.data hay.data

/-- The disabled check of lines 192–195: the control is skipped iff
`disabled` is truthy and (`'disabled' in disabled.lower()` or
`disabled == 'true'`). -/
def nextDisabled (b : NextButton) : Bool :=
  match pyOrStr b.ariaDisabled b.cls with
  | some d => if d = "" then false else (pyInStr "disabled" (pyLower d) || d = "true")
  | none => false

/-- Try the selector candidates in order (lines 187–202): skip selectors
that match nothing and controls that are detected disabled; return the first
clickable control. -/
def findNextButton : List (Option NextButton) → Option NextButton
  | [] => none
  | none :: rest => findNextButton rest
  | some b :: rest => if nextDisabled b then findNextButton rest else some b

/-- The pagination loop: `pages k` is the list of per-selector query results
on the k-th visited page; `rem` is the remaining iteration budget of
`range(25)`.  Returns the number of pages visited (collected) and the list
of controls clicked, in order. -/
def paginate (pages : Nat → List (Option NextButton)) :
    Nat → Nat → Nat × List NextButton
  | 0, k => (k, [])
  | rem + 1, k =>
    match findNextButton (pages k) with
    | none => (k + 1, [])
    | some b =>
      let r := paginate pages rem (k + 1)
      (r.1, b :: r.2)

theorem findNextButton_not_disabled :
    ∀ (btns : List (Option NextButton)) (b : NextButton),
      findNextButton btns = some b → nextDisabled b = false := by
  intro btns
  induction btns with
  | nil => intro b h; exact absurd h (by simp [findNextButton])
  | cons o rest ih =>
    intro b h
    cases o with
    | none => exact ih b h
    | some b0 =>
      by_cases hd : nextDisabled b0
      · rw [findNextButton, if_pos hd] at h
        exact ih b h
      · rw [findNextButton, if_neg hd] at h
        injection h with h
        subst h
        exact Bool.eq_false_iff.mpr hd

theorem paginate_clicks_not_disabled (pages : Nat → List (Option NextButton)) :
    ∀ (rem k : Nat) (b : NextButton), b ∈ (paginate pages rem k).2 →
      nextDisabled b = false := by
  intro rem
  induction rem with
  | zero => intro k b h; exact absurd h (by simp [paginate])
  | succ rem ih =>
    intro k b h
    rw [paginate] at h
    cases hf : findNextButton (pages k) with
    | none => rw [hf] at h; exact absurd h (by simp)
    | some b0 =>
      rw [hf] at h
      simp only [List.mem_cons] at h
      rcases h with h | h
      · subst h
        exact findNextButton_not_disabled (pages k) b hf
      · exact ih (k + 1) b h

theorem paginate_visited_le (pages : Nat → List (Option NextButton)) :
    ∀ rem k : Nat, (paginate pages rem k).1 ≤ k + rem := by
  intro rem
  induction rem with
  | zero => intro k; simp [paginate]
  | succ rem ih =>
    intro k
    rw [paginate]
    cases findNextButton (pages k) with
    | none => dsimp only; omega
    | some b =>
      have := ih (k + 1)
      simp only
      omega

theorem paginate_stops_at_none (pages : Nat → List (Option NextButton)) :
    ∀ (rem k m : Nat), k ≤ m → m < k + rem →
      (∀ j, k ≤ j → j < m → (findNextButton (pages j)).isSome = true) →
      findNextButton (pages m) = none →
      (paginate pages rem k).1 = m + 1 := by
  intro rem
  induction rem with
  | zero => intro k m h1 h2 _ _; omega
  | succ rem ih =>
    intro k m h1 h2 hsome hnone
    rw [paginate]
    cases hf : findNextButton (pages k) with
    | none =>
      have hkm : k = m := by
        by_contra hne
        have hlt : k < m := by omega
        have := hsome k (le_refl k) hlt
        rw [hf] at this
        simp at this
      subst hkm
      rfl
    | some b =>
      have hkm : k < m := by
        rcases Nat.lt_or_ge k m with h | h
        · exact h
        · have : k = m := by omega
          subst this
          rw [hf] at hnone
          exact absurd hnone (by simp)
      have := ih (k + 1) m (by omega) (by omega)
        (fun j hj1 hj2 => hsome j (by omega) hj2) hnone
      simp only
      omega

/-- **C9.** During pagination a "next page" control whose disabled marking is
detected (via `aria-disabled` or a disabled class) is never clicked; the loop
always terminates, visiting at most 25 result pages; and it stops right after
the first page on which no clickable next-control is found. -/
theorem pagination_spec (pages : Nat → List (Option NextButton)) :
    (∀ b ∈ (paginate pages 25 0).2, nextDisabled b = false) ∧
    (paginate pages 25 0).1 ≤ 25 ∧
    (∀ m, m < 25 → (∀ j, j < m → (findNextButton (pages j)).isSome = true) →
      findNextButton (pages m) = none → (paginate pages 25 0).1 = m + 1) := by
  refine ⟨?_, ?_, ?_⟩
  · intro b hb
    exact paginate_clicks_not_disabled pages 25 0 b hb
  · have := paginate_visited_le pages 25 0
    omega
  · intro m hm hsome hnone
    exact paginate_stops_at_none pages 25 0 m (Nat.zero_le m) (by omega)
      (fun j _ hj2 => hsome j hj2) hnone

/-- Witness for C9: page 0 offers a clickable control (class `pager-next`),
page 1 only a control with `aria-disabled='true'`, so the run clicks once,
never clicks the disabled control, and stops after visiting 2 pages. -/
theorem pagination_spec_witness :
    (∀ b ∈ (paginate (fun k => if k = 0 then [some ⟨none, some "pager-next"⟩]
        else [some ⟨some "true", none⟩]) 25 0).2, nextDisabled b = false) ∧
    (paginate (fun k => if k = 0 then [some ⟨none, some "pager-next"⟩]
        else [some ⟨some "true", none⟩]) 25 0).1 ≤ 25 ∧
    ((1 : Nat) < 25 ∧
     (∀ j, j < 1 → (findNextButton ((fun k => if k = 0 then
        [some (⟨none, some "pager-next"⟩ : NextButton)]
        else [some ⟨some "true", none⟩]) j)).isSome = true) ∧
     findNextButton ((fun k => if k = 0 then [some (⟨none, some "pager-next"⟩ : NextButton)]
        else [some ⟨some "true", none⟩]) 1) = none ∧
     (paginate (fun k => if k = 0 then [some ⟨none, some "pager-next"⟩]
        else [some ⟨some "true", none⟩]) 25 0).1 = 1 + 1) := by
  refine ⟨(pagination_spec _).1, (pagination_spec _).2.1, by decide, ?_, by decide, ?_⟩
  · intro j hj
    have hj0 : j = 0 := by omega
    subst hj0
    decide
  · exact (pagination_spec _).2.2 1 (by decide)
      (by intro j hj
          have hj0 : j = 0 := by omega
          subst hj0
          decide)
      (by decide)

/-! ## Web Mercator tile conversion (`geo_imagery.py`, `_deg2num`)

The source computes `xtile = int((lon + 180) / 360 * n)` and
`ytile = int((1 - log(tan(lat_rad) + 1/cos(lat_rad)) / pi) / 2 * n)` with
`n = 2.0 ** zoom`.  Python's `int()` on a float truncates toward zero, which
coincides with `floor` exactly when its argument is nonnegative. -/

/-- Python's `int()` on a float: truncation toward zero. -/
noncomputable def pyTrunc (x : ℝ) : ℤ := if 0 ≤ x then ⌊x⌋ else ⌈x⌉

/-- `_deg2num` as written in the source (`int()` = truncation). -/
noncomputable def deg2num (lat_deg lon_deg : ℝ) (zoom : ℕ) : ℤ × ℤ :=
  let lat_rad := lat_deg * Real.pi / 180
  let n : ℝ := 2 ^ zoom
  (pyTrunc ((lon_deg + 180) / 360 * n),
   pyTrunc ((1 - Real.log (Real.tan lat_rad + 1 / Real.cos lat_rad) / Real.pi) / 2 * n))

/-- Modelled from the spec: the standard Web Mercator tile formula,
`xtile = floor((lon+180)/360·n)`,
`ytile = floor((1 − ln(tan lat_rad + 1/cos lat_rad)/π)/2·n)`. -/
noncomputable def deg2numSpec (lat_deg lon_deg : ℝ) (zoom : ℕ) : ℤ × ℤ :=
  let lat_rad := lat_deg * Real.pi / 180
  let n : ℝ := 2 ^ zoom
  (⌊(lon_deg + 180) / 360 * n⌋,
   ⌊(1 - Real.log (Real.tan lat_rad + 1 / Real.cos lat_rad) / Real.pi) / 2 * n⌋)

theorem pyTrunc_eq_floor {x : ℝ} (h : 0 ≤ x) : pyTrunc x = ⌊x⌋ := if_pos h

/-- **C7.** For every longitude in `[-180, 180)` and every latitude within
the Web Mercator bounds — expressed as `cos lat_rad > 0` together with
`tan lat_rad ≤ sinh π`, which is exactly `|lat| ≤ atan (sinh π) ≈ 85.051°`
on the upper side, the side that matters for the `ytile` sign — the code's
truncating conversion agrees with the standard floor-based Web Mercator
tile formula at every zoom level. -/
theorem deg2num_eq_spec (lat_deg lon_deg : ℝ) (zoom : ℕ)
    (hlon1 : -180 ≤ lon_deg) (_hlon2 : lon_deg < 180)
    (hcos : 0 < Real.cos (lat_deg * Real.pi / 180))
    (htan : Real.tan (lat_deg * Real.pi / 180) ≤ Real.sinh Real.pi) :
    deg2num lat_deg lon_deg zoom = deg2numSpec lat_deg lon_deg zoom := by
  have hn : (0 : ℝ) ≤ 2 ^ zoom := by positivity
  have harg1 : 0 ≤ (lon_deg + 180) / 360 * (2 : ℝ) ^ zoom := by
    apply mul_nonneg _ hn
    apply div_nonneg _ (by norm_num)
    linarith
  have hsqrt : Real.sqrt (1 + Real.tan (lat_deg * Real.pi / 180) ^ 2) =
      1 / Real.cos (lat_deg * Real.pi / 180) := by
    have h := Real.inv_sqrt_one_add_tan_sq hcos
    rw [← h, one_div, inv_inv]
  have hlog : Real.log (Real.tan (lat_deg * Real.pi / 180) +
      1 / Real.cos (lat_deg * Real.pi / 180)) =
      Real.arsinh (Real.tan (lat_deg * Real.pi / 180)) := by
    rw [← hsqrt, ← Real.exp_arsinh, Real.log_exp]
  have hle : Real.log (Real.tan (lat_deg * Real.pi / 180) +
      1 / Real.cos (lat_deg * Real.pi / 180)) ≤ Real.pi := by
    rw [hlog]
    calc Real.arsinh (Real.tan (lat_deg * Real.pi / 180)) ≤
        Real.arsinh (Real.sinh Real.pi) := Real.arsinh_le_arsinh.mpr htan
      _ = Real.pi := Real.arsinh_sinh Real.pi
  have harg2 : 0 ≤ (1 - Real.log (Real.tan (lat_deg * Real.pi / 180) +
      1 / Real.cos (lat_deg * Real.pi / 180)) / Real.pi) / 2 * (2 : ℝ) ^ zoom := by
    apply mul_nonneg _ hn
    have hpi := Real.pi_pos
    have hdiv : Real.log (Real.tan (lat_deg * Real.pi / 180) +
        1 / Real.cos (lat_deg * Real.pi / 180)) / Real.pi ≤ 1 :=
      (div_le_one hpi).mpr hle
    linarith
  simp only [deg2num, deg2numSpec]
  rw [pyTrunc_eq_floor harg1, pyTrunc_eq_floor harg2]

/-- Witness for C7 at the origin (`lat = 0`, `lon = 0`, `zoom = 1`). -/
theorem deg2num_eq_spec_witness :
    (-180 ≤ (0 : ℝ)) ∧ ((0 : ℝ) < 180) ∧
    (0 < Real.cos ((0 : ℝ) * Real.pi / 180)) ∧
    (Real.tan ((0 : ℝ) * Real.pi / 180) ≤ Real.sinh Real.pi) ∧
    deg2num 0 0 1 = deg2numSpec 0 0 1 := by
  have h1 : -180 ≤ (0 : ℝ) := by norm_num
  have h2 : (0 : ℝ) < 180 := by norm_num
  have h3 : 0 < Real.cos ((0 : ℝ) * Real.pi / 180) := by
    rw [zero_mul, zero_div, Real.cos_zero]
    norm_num
  have h4 : Real.tan ((0 : ℝ) * Real.pi / 180) ≤ Real.sinh Real.pi := by
    rw [zero_mul, zero_div, Real.tan_zero]
    exact (Real.sinh_pos_iff.mpr Real.pi_pos).le
  exact ⟨h1, h2, h3, h4, deg2num_eq_spec 0 0 1 h1 h2 h3 h4⟩

end EPermits
